import Mathlib

/-!
Shallow embedding of the `MediaJohnD/maps` pipeline code
(`client_spend_pipeline.py`, `mapbox_flow.py`, `pipeline/merging.py`,
`pipeline/geography.py`, `pipeline/data_ingestion.py`) and proofs about it.

Tables (pandas `DataFrame`s) are modelled row-major: a list of column
names plus a list of rows, each row a list of cell values.  Cell values
are strings, rationals (covering the int/float dtypes the pipeline
touches) or NaN.
-/

namespace Maps

/-- A pandas cell value: a string, a number (int/float modelled as `Rat`),
or NaN/missing. -/
inductive Value where
  | str (s : String)
  | num (q : Rat)
  | nan
deriving DecidableEq

/-- A pandas `DataFrame`: ordered column names and row-major data.
Well-formed frames have `cols.Nodup` and every row of length `cols.length`;
theorems assume this where they need it. -/
structure DataFrame where
  cols : List String
  rows : List (List Value)
deriving DecidableEq

/-- `pd.DataFrame()` — the empty frame. -/
def DataFrame.empty : DataFrame := ⟨[], []⟩

/-- First index of a name in a column list, `none` if absent. -/
def idxOfCol (c : String) : List String → Option Nat
  | [] => none
  | d :: rest => if d = c then some 0 else (idxOfCol c rest).map (· + 1)

/-- Index of the (first) column with the given name, `none` if absent. -/
def colIdx (df : DataFrame) (c : String) : Option Nat :=
  idxOfCol c df.cols

/-- Cell of a row at a column index (NaN out of range, matching how a
well-formed frame is never read out of range). -/
def cellAt (row : List Value) (i : Nat) : Value :=
  row.getD i Value.nan

/-- The values of the column at index `i`. -/
def colValsAt (df : DataFrame) (i : Nat) : List Value :=
  df.rows.map (fun r => cellAt r i)

/-- Case-map for ASCII letters (Python `str.lower` on the ASCII names
this repository handles). -/
def lowerChar (c : Char) : Char :=
  if 'A' ≤ c ∧ c ≤ 'Z' then Char.ofNat (c.toNat + 32) else c

/-- Python `s.lower()`. -/
def pyLower (s : String) : String := ⟨s.toList.map lowerChar⟩

/-- Python `s.startswith(pre)`. -/
def pyStartsWith (s pre : String) : Bool := pre.toList.isPrefixOf s.toList

/-- Does `needle` occur as a contiguous run inside `hay`? -/
def containsSeq (needle : List Char) : List Char → Bool
  | [] => needle.isEmpty
  | c :: rest => needle.isPrefixOf (c :: rest) || containsSeq needle rest

/-- Python `needle in hay` on strings. -/
def strContains (hay needle : String) : Bool :=
  containsSeq needle.toList hay.toList

/-- Fragments of a character list split at every delimiter character
(adjacent delimiters yield empty fragments, exactly as `str.split(sep)`
or `re.split` without `+` would; `acc` holds the current fragment
reversed). -/
def splitChars (p : Char → Bool) : List Char → List Char → List (List Char)
  | [], acc => [acc.reverse]
  | c :: rest, acc =>
      if p c then acc.reverse :: splitChars p rest []
      else splitChars p rest (c :: acc)

/-- String split at a character predicate. -/
def splitStr (p : Char → Bool) (s : String) : List String :=
  (splitChars p s.toList []).map (fun l => ⟨l⟩)

/-- `Value` rendered by Python `str(...)`: strings unchanged, integers
without a decimal point, NaN as `"nan"`. -/
def valueToString : Value → String
  | .str s => s
  | .num q => if q.den = 1 then toString q.num else toString q
  | .nan => "nan"

/-- Is the value numeric (int/float, NaN included)? -/
def Value.isNumeric : Value → Bool
  | .str _ => false
  | _ => true

/-- Python `\s` class characters (whitespace). -/
def isPySpace (c : Char) : Bool :=
  c = ' ' || c = '\t' || c = '\n' || c = '\r' || c = '\x0b' || c = '\x0c'

/-- Characters of the `re.split(r"[;,\s]+", ...)` delimiter class in
`expand_zip_list` (client_spend_pipeline.py line 97). -/
def isGeoDelim (c : Char) : Bool :=
  c = ';' || c = ',' || isPySpace c

/-- Python `str.strip()`: drop leading and trailing whitespace. -/
def pyStrip (s : String) : String :=
  ⟨((s.toList.dropWhile isPySpace).reverse.dropWhile isPySpace).reverse⟩

/-- Errors raised by the pandas calls the pipeline makes. -/
inductive PdError where
  | keyError
  | valueError
  | typeError
  | indexError
deriving DecidableEq

instance {ε α : Type} [DecidableEq ε] [DecidableEq α] : DecidableEq (Except ε α)
  | .ok a, .ok b => if h : a = b then isTrue (by rw [h]) else isFalse (by simp [h])
  | .ok _, .error _ => isFalse (by simp)
  | .error _, .ok _ => isFalse (by simp)
  | .error e, .error f => if h : e = f then isTrue (by rw [h]) else isFalse (by simp [h])

/-! ## Column-role detection (client_spend_pipeline.py lines 113-122)

The two `for c in df.columns: ... break` loops of `aggregate_by_geo`,
run over the already-lowercased column names. -/

/-- Lines 113-117: first column whose name contains `"zip"`. -/
def findZipCol : List String → Option String
  | [] => none
  | c :: rest => if strContains c "zip" then some c else findZipCol rest

/-- Lines 118-122: first column whose name contains `"dma"` and does not
start with `"exclude"`. -/
def findDmaCol : List String → Option String
  | [] => none
  | c :: rest =>
      if strContains c "dma" && !(pyStartsWith c "exclude") then some c
      else findDmaCol rest

/-! ## `expand_zip_list` (client_spend_pipeline.py lines 91-105) -/

/-- The loop body for one row: split the ZIP cell's string on the
delimiter class, strip each piece, skip empties, and emit one copy of the
row per kept token with the ZIP cell replaced by the token.
`re.split(r"[;,\s]+", s)` collapses a delimiter run into one split point
where `String.split` emits empty fragments between adjacent delimiters;
the loop's empty-token check drops those fragments, so the emitted rows
agree. -/
def expandRow (i : Nat) (row : List Value) : List (List Value) :=
  let zips := splitStr isGeoDelim (valueToString (cellAt row i))
  zips.foldr
    (fun z acc =>
      let z := pyStrip z
      if z = "" then acc else (row.set i (.str z)) :: acc) []

/-- `expand_zip_list(zip_field, df)`: a frame unchanged when the field is
absent, otherwise rebuilt from the per-row expansions; `pd.DataFrame([])`
(when every row expands to nothing) has no columns at all. -/
def expand_zip_list (zipField : String) (df : DataFrame) : DataFrame :=
  match colIdx df zipField with
  | none => df
  | some i =>
      let newRows := df.rows.foldr (fun row acc => expandRow i row ++ acc) []
      if newRows.isEmpty then DataFrame.empty else ⟨df.cols, newRows⟩

/-! ## `normalize_numeric` (client_spend_pipeline.py lines 78-88) -/

/-- Pairwise minimum of two cell values; `none` models the `TypeError`
Python raises when comparing a string with a number. -/
def vmin : Value → Value → Option Value
  | .num a, .num b => some (.num (min a b))
  | .str a, .str b => some (.str (min a b))
  | _, _ => none

/-- Pairwise maximum of two cell values, as `vmin`. -/
def vmax : Value → Value → Option Value
  | .num a, .num b => some (.num (max a b))
  | .str a, .str b => some (.str (max a b))
  | _, _ => none

/-- `Series.min()`: skip NaN (NaN when nothing is left) and fold the
remaining values; mixed string/number data raises (`none`). -/
def seriesMin (xs : List Value) : Option Value :=
  match xs.filter (fun v => v ≠ Value.nan) with
  | [] => some .nan
  | y :: rest => rest.foldl (fun acc v => do vmin (← acc) v) (some y)

/-- `Series.max()`, as `seriesMin`. -/
def seriesMax (xs : List Value) : Option Value :=
  match xs.filter (fun v => v ≠ Value.nan) with
  | [] => some .nan
  | y :: rest => rest.foldl (fun acc v => do vmax (← acc) v) (some y)

/-- Subtraction on cell values: NaN propagates, strings raise (`none`). -/
def vsub : Value → Value → Option Value
  | .num a, .num b => some (.num (a - b))
  | .nan, .num _ => some .nan
  | .num _, .nan => some .nan
  | .nan, .nan => some .nan
  | _, _ => none

/-- Division on cell values, as `vsub` (the pipeline only divides by a
nonzero `max - min`). -/
def vdiv : Value → Value → Option Value
  | .num a, .num b => some (.num (a / b))
  | .nan, .num _ => some .nan
  | .num _, .nan => some .nan
  | .nan, .nan => some .nan
  | _, _ => none

/-- `(x - min) / (max - min)` for one cell. -/
def normCell (mn rng v : Value) : Option Value := do
  vdiv (← vsub v mn) rng

/-- Monadic row map (the vectorized pandas column assignment, cell by
cell; `none` once any cell operation raises). -/
def mapRowsM (f : List Value → Option (List Value)) :
    List (List Value) → Option (List (List Value))
  | [] => some []
  | r :: rest => do
      let r' ← f r
      let rest' ← mapRowsM f rest
      pure (r' :: rest')

/-- One iteration of the `for col in columns` loop of `normalize_numeric`:
skip absent columns; compute the column's min/max; when both are non-NaN
and distinct, min-max scale every cell, otherwise assign the scalar `0`
to the whole column. -/
def normalizeColStep (df : DataFrame) (c : String) : Option DataFrame :=
  match colIdx df c with
  | none => some df
  | some i => do
      let xs := colValsAt df i
      let mn ← seriesMin xs
      let mx ← seriesMax xs
      if mn ≠ Value.nan ∧ mx ≠ Value.nan ∧ mx ≠ mn then
        let rng ← vsub mx mn
        let newRows ← mapRowsM (fun row => do
          pure (row.set i (← normCell mn rng (cellAt row i)))) df.rows
        pure ⟨df.cols, newRows⟩
      else
        pure ⟨df.cols, df.rows.map (fun row => row.set i (.num 0))⟩

/-- Spec-side: every non-NaN entry is a number in `[0, 1]`. -/
def InRange01 (xs : List Value) : Prop :=
  ∀ v ∈ xs, v ≠ Value.nan → ∃ q : Rat, v = Value.num q ∧ 0 ≤ q ∧ q ≤ 1

/-- Spec-side: the column falls into the `else` branch of
`normalize_numeric` — its minimum or maximum is NaN, or they coincide. -/
def DegenerateCol (xs : List Value) : Prop :=
  seriesMin xs = some .nan ∨ seriesMax xs = some .nan ∨ seriesMin xs = seriesMax xs

/-- `normalize_numeric(df, columns)` (lines 78-88), the loop over the
listed columns; `none` models a raised `TypeError`. -/
def normalize_numeric (df : DataFrame) (columns : List String) : Option DataFrame :=
  columns.foldlM normalizeColStep df

/-! ## `groupby(...).sum()` and `aggregate_by_geo`
(client_spend_pipeline.py lines 108-136) -/

/-- Total order on cell values used to sort group keys (`groupby`
defaults to `sort=True`); the pipeline only ever sorts keys of one kind
(NaN keys are dropped beforehand), where this matches pandas: numbers by
value, strings lexicographically. -/
def valLe : Value → Value → Bool
  | .nan, _ => true
  | .num _, .nan => false
  | .num a, .num b => a ≤ b
  | .num _, .str _ => true
  | .str a, .str b => a ≤ b
  | .str _, _ => false

/-- Lexicographic order on group-key tuples. -/
def keyLe : List Value → List Value → Bool
  | [], _ => true
  | _ :: _, [] => false
  | a :: as, b :: bs => if a = b then keyLe as bs else valLe a b

/-- Insert a key into a sorted key list. -/
def insertKeySorted (k : List Value) : List (List Value) → List (List Value)
  | [] => [k]
  | j :: rest => if keyLe k j then k :: j :: rest else j :: insertKeySorted k rest

/-- Sort group keys ascending. -/
def sortKeys (ks : List (List Value)) : List (List Value) :=
  ks.foldr insertKeySorted []

/-- Distinct keys in first-occurrence order. -/
def dedupKeys (ks : List (List Value)) : List (List Value) :=
  ks.foldl (fun acc k => if k ∈ acc then acc else acc ++ [k]) []

/-- `Series.sum()` of a numeric (number/NaN) column slice: NaN counts as
zero (`skipna`), an all-NaN or empty slice sums to `0`.  Callers only
pass numeric columns, so the string case never arises. -/
def sumVals (xs : List Value) : Value :=
  .num (xs.foldl (fun acc v => match v with | .num q => acc + q | _ => acc) 0)

/-- `df.groupby(gcols)[ncols].sum().reset_index()`: `ValueError` when no
group keys are passed, `KeyError` for a missing column, `ValueError` when
`reset_index` would re-insert a
grouping column selected in `ncols`; otherwise rows with a NaN group key
are dropped (`dropna=True`), the distinct keys are sorted ascending, and
each listed column is summed per group.  Result columns are the group
keys followed by the summed columns. -/
def groupbySum (df : DataFrame) (gcols ncols : List String) : Except PdError DataFrame :=
  if gcols.isEmpty then .error .valueError
  else if gcols.any (fun g => (colIdx df g).isNone) then .error .keyError
  else if ncols.any (fun c => (colIdx df c).isNone) then .error .keyError
  else if gcols.any (fun g => g ∈ ncols) then .error .valueError
  else
    let gidx := gcols.filterMap (colIdx df)
    let nidx := ncols.filterMap (colIdx df)
    let keyOf := fun (row : List Value) => gidx.map (cellAt row)
    let kept := df.rows.filter (fun row => (keyOf row).all (fun v => v ≠ Value.nan))
    let keys := sortKeys (dedupKeys (kept.map keyOf))
    let outRows := keys.map (fun k =>
      let grp := kept.filter (fun r => keyOf r = k)
      k ++ nidx.map (fun i => sumVals (grp.map (fun r => cellAt r i))))
    .ok ⟨gcols ++ ncols, outRows⟩

/-- `df.rename(columns=m)`: first matching entry wins (the mapping is
built dict-style, so callers collapse duplicate keys before calling). -/
def renameCols (df : DataFrame) (m : List (String × String)) : DataFrame :=
  ⟨df.cols.map (fun c => (m.lookup c).getD c), df.rows⟩

/-- The numeric columns of a frame (`df[c].dtype.kind in "if"`, line
128): after `pd.DataFrame(rows)` re-inference a column is int64/float64
exactly when every cell is a number or NaN.  (Only used on frames with
rows, where this matches pandas.) -/
def numericCols (df : DataFrame) : List String :=
  df.cols.enum.filterMap (fun ic =>
    if (colValsAt df ic.1).all Value.isNumeric then some ic.2 else none)

/-- `aggregate_by_geo(df)` (lines 108-136): lowercase the column names,
detect the ZIP/DMA role columns, bail out with an empty frame when no
ZIP column exists, expand multi-value ZIP cells, min-max normalize the
numeric columns, group-sum by ZIP (and DMA when found), and rename the
key columns to `ZIP`/`DMA`. -/
def aggregate_by_geo (df : DataFrame) : Except PdError DataFrame :=
  let df : DataFrame := ⟨df.cols.map pyLower, df.rows⟩
  let zipOpt := findZipCol df.cols
  let dmaOpt := findDmaCol df.cols
  match zipOpt with
  | none => .ok DataFrame.empty
  | some zc =>
    let df := expand_zip_list zc df
    let ncols := numericCols df
    match normalize_numeric df ncols with
    | none => .error .typeError
    | some df =>
      let gcols := zc :: (match dmaOpt with | some d => [d] | none => [])
      match groupbySum df gcols ncols with
      | .error e => .error e
      | .ok agg =>
        let dmaKey := dmaOpt.getD "dma"
        let renames := if dmaKey = zc then [(zc, "DMA")]
          else [(zc, "ZIP"), (dmaKey, "DMA")]
        .ok (renameCols agg renames)

/-! ## `merge_on_keys` (pipeline/merging.py lines 8-15)

`pd.merge(..., on=keys, how="outer")`: the key columns are coalesced
into single output columns; other column-name collisions get the default
`_x`/`_y` suffixes; a key value present on both sides pairs every
matching left row with every matching right row, and unmatched rows of
either side are kept once, NaN-padded on the other side.  (pandas
matches NaN keys to each other, as does `Value` equality here.) -/

/-- Key tuple of a row under the given key column indices. -/
def keyTuple (idxs : List Nat) (row : List Value) : List Value :=
  idxs.map (cellAt row)

/-- dtype kind of the column named `k` as pandas infers it from the
values: `true` (int64/float64) when every cell is a number or NaN,
`false` (object) otherwise.  (As with `numericCols`, this matches pandas
on the frames with rows that the pipeline actually merges.) -/
def kindNumeric (df : DataFrame) (k : String) : Bool :=
  match colIdx df k with
  | some i => (colValsAt df i).all Value.isNumeric
  | none => true

/-- `pd.merge(left, right, on=keys, how="outer")`; `KeyError` when a key
column is missing from either side; `ValueError` when a key column is
int64/float64 on one side and object on the other ("You are trying to
merge on int64 and object columns") or when the `_x`/`_y` suffixing
would leave duplicate column names (`pandas.errors.MergeError`, a
`ValueError` subclass). -/
def mergeOuter (keys : List String) (left right : DataFrame) : Except PdError DataFrame :=
  if keys.any (fun k => (colIdx left k).isNone) then .error .keyError
  else if keys.any (fun k => (colIdx right k).isNone) then .error .keyError
  else if keys.any (fun k => kindNumeric left k ≠ kindNumeric right k) then
    .error .valueError
  else
    let lk := keys.filterMap (colIdx left)
    let rk := keys.filterMap (colIdx right)
    let rvalCols := right.cols.filter (fun c => c ∉ keys)
    let rvalIdx := rvalCols.filterMap (colIdx right)
    let outCols :=
      left.cols.map (fun c => if c ∉ keys ∧ c ∈ right.cols then c ++ "_x" else c) ++
      rvalCols.map (fun c => if c ∈ left.cols then c ++ "_y" else c)
    if outCols.Nodup then
      let leftRows := left.rows.flatMap (fun l =>
        let ms := right.rows.filter (fun r => keyTuple rk r = keyTuple lk l)
        match ms with
        | [] => [l ++ List.replicate rvalCols.length Value.nan]
        | _ => ms.map (fun r => l ++ keyTuple rvalIdx r))
      let rightOnly := (right.rows.filter (fun r =>
          left.rows.all (fun l => keyTuple lk l ≠ keyTuple rk r))).map (fun r =>
        left.cols.map (fun c =>
          match colIdx right c with
          | some j => if c ∈ keys then cellAt r j else Value.nan
          | none => Value.nan) ++ keyTuple rvalIdx r)
      .ok ⟨outCols, leftRows ++ rightOnly⟩
    else .error .valueError

/-- `merge_on_keys(dfs, keys)` (pipeline/merging.py lines 8-15):
`ValueError` on an empty list, else the left fold of outer merges. -/
def merge_on_keys (dfs : List DataFrame) (keys : List String) : Except PdError DataFrame :=
  match dfs with
  | [] => .error .valueError
  | d :: rest => rest.foldlM (fun acc df => mergeOuter keys acc df) d

/-! ## `pipeline/geography.py` (lines 19-29) -/

/-- Python `str.zfill(w)`: left-pad with zeros to width `w`, keeping a
leading sign in front of the padding. -/
def zfill (w : Nat) (s : String) : String :=
  if s.length ≥ w then s
  else
    match s.toList with
    | c :: rest =>
        if c = '+' ∨ c = '-' then ⟨c :: (List.replicate (w - s.length) '0' ++ rest)⟩
        else ⟨List.replicate (w - s.length) '0' ++ s.toList⟩
    | [] => ⟨List.replicate w '0'⟩

/-- `standardize_zip(df, column)` (lines 19-22):
`df[column].astype(str).str.zfill(5)`; `KeyError` when the column is
missing.  (`astype(str)` of an integer cell prints without a decimal
point, which is how `valueToString` renders integral `Rat`s.) -/
def standardize_zip (df : DataFrame) (column : String) : Except PdError DataFrame :=
  match colIdx df column with
  | none => .error .keyError
  | some i =>
      .ok ⟨df.cols, df.rows.map (fun r =>
        r.set i (.str (zfill 5 (valueToString (cellAt r i)))))⟩

/-- `pd.merge(left, right, left_on=lk, right_on=rk, how="left")`: both
join columns are kept, every colliding column name is suffixed, each
left row appears once per matching right row and once NaN-padded when
nothing matches; right rows without a match are dropped. -/
def mergeLeftOn (left right : DataFrame) (lk rk : String) : Except PdError DataFrame :=
  match colIdx left lk, colIdx right rk with
  | some li, some ri =>
      let outCols :=
        left.cols.map (fun c => if c ∈ right.cols then c ++ "_x" else c) ++
        right.cols.map (fun c => if c ∈ left.cols then c ++ "_y" else c)
      let rows := left.rows.flatMap (fun l =>
        let ms := right.rows.filter (fun r => cellAt r ri = cellAt l li)
        match ms with
        | [] => [l ++ List.replicate right.cols.length Value.nan]
        | _ => ms.map (fun r => l ++ r))
      .ok ⟨outCols, rows⟩
  | _, _ => .error .keyError

/-- `map_zip_to_dma(df, zip_col, mapping)` (lines 25-29): zero-pad the
ZIP column, then left-merge the mapping on `zip_col` = `ZIP`. -/
def map_zip_to_dma (df : DataFrame) (zipCol : String) (mapping : DataFrame) : Except PdError DataFrame := do
  mergeLeftOn (← standardize_zip df zipCol) mapping zipCol "ZIP"

/-! ## `create_heatmap_features` (client_spend_pipeline.py lines 187-207) -/

/-- A GeoJSON point feature as the pipeline builds it: the coordinates
and the `properties` dict. -/
structure Feature where
  lon : Value
  lat : Value
  props : List (String × Value)
deriving DecidableEq

/-- Python dict assignment `d[k] = v` on an insertion-ordered record:
overwrite in place when the key exists, else append. -/
def dictSet {α : Type} (d : List (String × α)) (k : String) (v : α) : List (String × α) :=
  if d.any (fun p => p.1 = k) then d.map (fun p => if p.1 = k then (k, v) else p)
  else d ++ [(k, v)]

/-- `float(x)` on a cell: numbers and NaN pass through; the pipeline's
reference tables carry numeric coordinates, so the string-parsing case
is modelled as the error it would raise on non-numeric text. -/
def vToFloat : Value → Option Value
  | .num q => some (.num q)
  | .nan => some .nan
  | .str _ => none

/-- `create_heatmap_features(df, zip_latlon)` (lines 187-207): for each
row, zero-pad `row["ZIP"]`, look it up in `zip_latlon["ZIP"]`, skip the
row when nothing matches, else emit a point feature with the first
match's coordinates and the row's dict as properties (plus
`properties["value"] = spend` when a `spend` column exists).  `none`
models a raised exception (missing `ZIP`/coordinate columns, non-numeric
coordinates). -/
def heatGo (df zipLatlon : DataFrame) (rows : List (List Value)) : Option (List Feature) :=
  rows.foldrM (fun row acc => do
    let zi ← colIdx df "ZIP"
    let zli ← colIdx zipLatlon "ZIP"
    match zipLatlon.rows.filter
        (fun r => cellAt r zli = .str (zfill 5 (valueToString (cellAt row zi)))) with
    | [] => pure acc
    | rec0 :: _ => do
        let loni ← colIdx zipLatlon "longitude"
        let lati ← colIdx zipLatlon "latitude"
        let lon ← vToFloat (cellAt rec0 loni)
        let lat ← vToFloat (cellAt rec0 lati)
        let props := df.cols.zip row
        let props := match colIdx df "spend" with
          | some si => dictSet props "value" (cellAt row si)
          | none => props
        pure ({ lon := lon, lat := lat, props := props } :: acc)) []

def create_heatmap_features (df zipLatlon : DataFrame) : Option (List Feature) :=
  heatGo df zipLatlon df.rows

/-! ## Multi-file ingestion

`load_spreadsheets` (client_spend_pipeline.py lines 52-75),
`load_data_files` (mapbox_flow.py lines 41-55) and
`load_sources`/`load_dataset` (pipeline/data_ingestion.py lines 28-59).
The third-party readers (`pd.read_csv`, `pd.read_excel`, `requests`,
`zipfile`) are oracles passed in as parameters; `.error` models a raised
exception inside such a call. -/

/-- A file on disk, by stem and suffix (`Path.stem`/`Path.suffix`). -/
structure SrcFile where
  stem : String
  suffix : String
deriving DecidableEq

/-- Reader oracles for `load_spreadsheets`. -/
structure SpreadReaders where
  readCsv : SrcFile → Except Unit DataFrame
  /-- `list(pd.read_excel(f, nrows=0).columns)`; `none` entries model
  Python `None`. -/
  readExcelHead : SrcFile → Except Unit (List (Option Value))
  /-- `pd.read_excel(f, skiprows=6)`. -/
  readExcelSkip : SrcFile → Except Unit DataFrame
  /-- `pd.read_excel(f)`. -/
  readExcelFull : SrcFile → Except Unit DataFrame

/-- `str(header[0])` for the `"Unnamed"` test on line 65. -/
def showHeadEntry : Option Value → String
  | none => "None"
  | some v => valueToString v

/-- The `try` body of the `load_spreadsheets` loop for one file:
`.ok none` is the bare `continue` for an unhandled suffix (no read is
attempted), `.error` a raised exception (including the `IndexError` of
`header[0]` on a headerless sheet). -/
def readOneSpreadsheet (R : SpreadReaders) (f : SrcFile) : Except Unit (Option DataFrame) :=
  if pyLower f.suffix = ".csv" then do
    pure (some (← R.readCsv f))
  else if pyLower f.suffix = ".xlsx" ∨ pyLower f.suffix = ".xls" then do
    let hdr ← R.readExcelHead f
    match hdr with
    | [] => throw ()
    | h :: _ =>
        if h = none ∨ strContains (showHeadEntry h) "Unnamed" then
          pure (some (← R.readExcelSkip f))
        else
          pure (some (← R.readExcelFull f))
  else pure none

/-- `load_spreadsheets(files)` (lines 52-75): fold over the files,
storing each parsed frame under its stem (Python dict semantics) and
silently skipping any file whose read raises. -/
def load_spreadsheets (R : SpreadReaders) (files : List SrcFile) :
    List (String × DataFrame) :=
  files.foldl (fun datasets f =>
    match readOneSpreadsheet R f with
    | .error _ => datasets
    | .ok none => datasets
    | .ok (some df) => dictSet datasets f.stem df) []

/-- Reader oracles for `load_data_files`. -/
structure FlowReaders where
  readCsv : SrcFile → Except Unit DataFrame
  /-- `pd.read_excel(p, engine="openpyxl")`. -/
  readExcelOpenpyxl : SrcFile → Except Unit DataFrame

/-- The `try` body of the `load_data_files` loop for one path. -/
def readOneDataFile (R : FlowReaders) (p : SrcFile) : Except Unit (Option DataFrame) :=
  if pyLower p.suffix = ".csv" then do
    pure (some (← R.readCsv p))
  else if pyLower p.suffix = ".xls" ∨ pyLower p.suffix = ".xlsx" then do
    pure (some (← R.readExcelOpenpyxl p))
  else pure none

/-- `load_data_files(paths)` (mapbox_flow.py lines 41-55): as
`load_spreadsheets` but collecting a list and skipping parse failures. -/
def load_data_files (R : FlowReaders) (paths : List SrcFile) : List DataFrame :=
  paths.foldl (fun dfs p =>
    match readOneDataFile R p with
    | .error _ => dfs
    | .ok none => dfs
    | .ok (some df) => dfs ++ [df]) []

/-- Exceptions of `pipeline/data_ingestion.py`. -/
inductive IngestError where
  | fileNotFound
  | valueError
  | readError
deriving DecidableEq

/-- Last path component (`PurePath.name`). -/
def pathBase (path : String) : String :=
  (splitStr (fun c => c = '/') path).getLastD ""

/-- `Path(path).suffix`: the final `"."`-extension of the last
component, empty when there is none or when the name is a bare dotfile. -/
def pathSuffix (path : String) : String :=
  let parts := splitStr (fun c => c = '.') (pathBase path)
  match parts with
  | [] => ""
  | [_] => ""
  | first :: rest =>
      if first = "" ∧ rest.length = 1 then ""
      else
        match (first :: rest).getLast? with
        | some "" => ""
        | some ext => "." ++ ext
        | none => ""

/-- `Path(path).stem`: last component minus its suffix. -/
def pathStem (path : String) : String :=
  let base := pathBase path
  base.dropRight (pathSuffix path).length

/-- Oracles for `data_ingestion`: `B` stands in for raw `bytes`. -/
structure Ingest (B : Type) where
  /-- `_download` (`requests.get` + `raise_for_status`). -/
  download : String → Except IngestError B
  /-- `Path(path).exists()`. -/
  fileExists : String → Bool
  /-- `Path(path).read_bytes()` / opening the archive file. -/
  readBytes : String → Except IngestError B
  /-- `zipfile.ZipFile(...).namelist()[0]` (`IndexError` on an empty
  archive is a raised exception too). -/
  zipFirstName : B → Except IngestError String
  /-- `zf.open(name).read()`. -/
  zipOpenFirst : B → Except IngestError B
  /-- `pd.read_csv(io.BytesIO(data))`. -/
  readCsvBytes : B → Except IngestError DataFrame
  /-- `pd.read_excel(io.BytesIO(data))`. -/
  readExcelBytes : B → Except IngestError DataFrame

/-- `_read_from_bytes(data, suffix)` (lines 13-19): dispatch on the
suffix, `ValueError` for an unsupported type. -/
def readFromBytes {B : Type} (I : Ingest B) (data : B) (sfx : String) :
    Except IngestError DataFrame :=
  if sfx = ".csv" then I.readCsvBytes data
  else if sfx = ".xlsx" ∨ sfx = ".xls" then I.readExcelBytes data
  else .error .valueError

/-- `load_dataset(path)` (lines 29-50): URL branch (download, unwrap a
`.zip` around its first member), else require the local file to exist
(`FileNotFoundError` otherwise), unwrap `.zip`, and parse. -/
def load_dataset {B : Type} (I : Ingest B) (path : String) :
    Except IngestError DataFrame :=
  if pyStartsWith path "http://" ∨ pyStartsWith path "https://" then do
    let raw ← I.download path
    let sfx := pyLower (pathSuffix path)
    if sfx = ".zip" then do
      let name ← I.zipFirstName raw
      let inner ← I.zipOpenFirst raw
      readFromBytes I inner (pyLower (pathSuffix name))
    else readFromBytes I raw sfx
  else if I.fileExists path then
    if pyLower (pathSuffix path) = ".zip" then do
      let raw ← I.readBytes path
      let name ← I.zipFirstName raw
      let inner ← I.zipOpenFirst raw
      readFromBytes I inner (pyLower (pathSuffix name))
    else do
      let raw ← I.readBytes path
      readFromBytes I raw (pyLower (pathSuffix path))
  else .error .fileNotFound

/-- `load_sources(sources)` (lines 53-59): load every source keyed by
stem — with no exception handling, so any `load_dataset` failure
propagates. -/
def load_sources {B : Type} (I : Ingest B) (sources : List String) :
    Except IngestError (List (String × DataFrame)) :=
  sources.foldlM (fun data src => do
    pure (dictSet data (pathStem src) (← load_dataset I src))) []

/-! ## The two `main` entry points
(client_spend_pipeline.py lines 291-344, mapbox_flow.py lines 239-283)

A run is modelled in a trace monad: each I/O step appends a label to a
log (also when the underlying call raises), so "aborts before any
processing" is the statement that a failed run leaves the log empty. -/

/-- Computations that may fail (an uncaught Python exception) while
logging the I/O effects they perform. -/
def Trace (α : Type) : Type := List String → Option α × List String

instance : Monad Trace where
  pure a := fun log => (some a, log)
  bind x f := fun log =>
    match x log with
    | (some a, log') => f a log'
    | (none, log') => (none, log')

/-- An uncaught exception. -/
def traceFail {α : Type} : Trace α := fun log => (none, log)

/-- Run an I/O oracle, logging the attempt. -/
def effectCall {ε α : Type} (label : String) (x : Except ε α) : Trace α := fun log =>
  match x with
  | .ok a => (some a, log ++ [label])
  | .error _ => (none, log ++ [label])

/-- Log an I/O effect whose result the model does not inspect
(file writes, reads performed inside an already-modelled helper). -/
def effectMark (label : String) : Trace Unit := fun log =>
  (some (), log ++ [label])

/-- Lift a pure in-process computation: no I/O effect, failure is an
uncaught exception. -/
def liftPure {ε α : Type} (x : Except ε α) : Trace α := fun log =>
  match x with
  | .ok a => (some a, log)
  | .error _ => (none, log)

/-- `pd.concat(dfs, axis=0, ignore_index=True)`: `ValueError` on an
empty list; otherwise the union of the columns in first-appearance
order, rows NaN-padded at columns a frame lacks. -/
def concatFrames (dfs : List DataFrame) : Except PdError DataFrame :=
  match dfs with
  | [] => .error .valueError
  | _ =>
      let cols := dfs.foldl (fun acc df => acc ++ df.cols.filter (fun c => c ∉ acc)) []
      .ok ⟨cols, dfs.flatMap (fun df => df.rows.map (fun row =>
        cols.map (fun c =>
          match colIdx df c with
          | some i => cellAt row i
          | none => Value.nan)))⟩

/-- `df.empty`: true when either axis has length zero. -/
def DataFrame.isEmptyPd (df : DataFrame) : Bool :=
  df.rows.isEmpty || df.cols.isEmpty

/-- A flow feature of `build_flow_records` (LineString endpoints plus
properties). -/
structure Flow where
  olon : Value
  olat : Value
  dlon : Value
  dlat : Value
  props : List (String × Value)
deriving DecidableEq

/-- The `destination`+`zip` column scan of `build_flow_records`
(client_spend_pipeline.py lines 147-150). -/
def findDestCol : List String → Option String
  | [] => none
  | c :: rest =>
      if strContains c "destination" && strContains c "zip" then some c
      else findDestCol rest

/-- `Option Nat` column index as the `KeyError` pandas raises on a
missing label. -/
def needCol (o : Option Nat) : Except PdError Nat :=
  match o with
  | some i => .ok i
  | none => .error .keyError

/-- `build_flow_records(df, zip_latlon)` (client_spend_pipeline.py lines
139-184): lowercase columns, require an `origin` column and a
`destination…zip` column, expand multi-value destinations, and emit one
LineString flow per row whose zero-padded origin and destination ZIPs
both appear in `zip_latlon`, tagging the first present magnitude field. -/
def build_flow_records (df zipLatlon : DataFrame) : Except PdError (List Flow) :=
  let df : DataFrame := ⟨df.cols.map pyLower, df.rows⟩
  if "origin" ∉ df.cols then .ok []
  else
    match findDestCol df.cols with
    | none => .ok []
    | some dest =>
      let df := expand_zip_list dest df
      do
        let oi ← needCol (colIdx df "origin")
        let di ← needCol (colIdx df dest)
        let zli ← needCol (colIdx zipLatlon "ZIP")
        df.rows.foldrM (fun row acc => do
          let ozip := zfill 5 (valueToString (cellAt row oi))
          let dzip := zfill 5 (valueToString (cellAt row di))
          let orecs := zipLatlon.rows.filter (fun r => cellAt r zli = .str ozip)
          let drecs := zipLatlon.rows.filter (fun r => cellAt r zli = .str dzip)
          match orecs, drecs with
          | orec :: _, drec :: _ => do
              let loni ← needCol (colIdx zipLatlon "longitude")
              let lati ← needCol (colIdx zipLatlon "latitude")
              let olon ← (vToFloat (cellAt orec loni)).elim (.error .typeError) .ok
              let olat ← (vToFloat (cellAt orec lati)).elim (.error .typeError) .ok
              let dlon ← (vToFloat (cellAt drec loni)).elim (.error .typeError) .ok
              let dlat ← (vToFloat (cellAt drec lati)).elim (.error .typeError) .ok
              let baseProps := [("origin_zip", Value.str ozip), ("dest_zip", Value.str dzip)]
              let props := match ["spend", "visits", "impressions"].find? (fun fld => fld ∈ df.cols) with
                | some fld =>
                    let v := cellAt row ((colIdx df fld).getD 0)
                    baseProps ++ [(fld, v), ("magnitude", v)]
                | none => baseProps
              pure ({ olon := olon, olat := olat, dlon := dlon, dlat := dlat,
                      props := props } :: acc)
          | _, _ => pure acc) []

/-- Lines 313-318 of `main`: set `zip_latlon["ZIP"]` from the
zero-padded first column (`IndexError` on a columnless frame) and adopt
`LAT`/`LNG` as the coordinate names when needed. -/
def latlonPrep (df : DataFrame) : Except PdError DataFrame :=
  match df.cols with
  | [] => .error .indexError
  | _ :: _ =>
      let zvals := df.rows.map (fun r => Value.str (zfill 5 (valueToString (cellAt r 0))))
      let df1 : DataFrame := match colIdx df "ZIP" with
        | some zi => ⟨df.cols, (df.rows.zip zvals).map (fun rz => rz.1.set zi rz.2)⟩
        | none => ⟨df.cols ++ ["ZIP"], (df.rows.zip zvals).map (fun rz => rz.1 ++ [rz.2])⟩
      .ok (if "latitude" ∉ df1.cols ∨ "longitude" ∉ df1.cols then
          if "LAT" ∈ df1.cols ∧ "LNG" ∈ df1.cols then
            renameCols df1 [("LAT", "latitude"), ("LNG", "longitude")]
          else df1
        else df1)

/-- The `for df in datasets.values()` loop of `main` (lines 320-325):
collect non-empty aggregates and all flow records. -/
def collectParts (datasets : List (String × DataFrame)) (latlon : DataFrame) :
    Except PdError (List DataFrame × List Flow) :=
  datasets.foldlM (fun acc nd => do
    let agg ← aggregate_by_geo nd.2
    let parts := if !agg.isEmptyPd then acc.1 ++ [agg] else acc.1
    let flows ← build_flow_records nd.2 latlon
    pure (parts, acc.2 ++ flows)) ([], [])

/-- CLI arguments of `client_spend_pipeline.main`. -/
structure ClientArgs where
  zip1 : String
  zip2 : String
  zipLatlon : String
  outputHtml : String

/-- I/O oracles of `client_spend_pipeline.main`. -/
structure ClientOps where
  download : String → Except Unit SrcFile
  extractZip : SrcFile → Except Unit (List SrcFile)
  readers : SpreadReaders
  readCsvPath : String → Except Unit DataFrame

/-- `client_spend_pipeline.main()` (lines 291-344): check
`MAPBOX_TOKEN` (falsy → `RuntimeError`), then download and extract the
two archives, load the spreadsheets, prepare the lat/lon reference,
aggregate, and write the three output files. -/
def mainClient (env : String → Option String) (args : ClientArgs) (ops : ClientOps) :
    Trace Unit := do
  let _token ← match env "MAPBOX_TOKEN" with
    | none => traceFail
    | some t => if t = "" then traceFail else pure t
  let zip1 ← effectCall ("download " ++ args.zip1) (ops.download args.zip1)
  let zip2 ← effectCall ("download " ++ args.zip2) (ops.download args.zip2)
  let files1 ← effectCall "extract zip1" (ops.extractZip zip1)
  let files2 ← effectCall "extract zip2" (ops.extractZip zip2)
  let datasets := load_spreadsheets ops.readers (files1 ++ files2)
  let _ ← effectMark "load_spreadsheets"
  let latlonRaw ← effectCall ("read_csv " ++ args.zipLatlon) (ops.readCsvPath args.zipLatlon)
  let latlon ← liftPure (latlonPrep latlonRaw)
  let parts ← liftPure (collectParts datasets latlon)
  if parts.1.isEmpty then traceFail
  else do
    let aggregated ← liftPure (concatFrames parts.1)
    let aggregated ← liftPure (groupbySum aggregated ["ZIP", "DMA"]
      (aggregated.cols.filter (fun c => c ∉ ["ZIP", "DMA"])))
    let _heat ← liftPure ((create_heatmap_features aggregated latlon).elim
      (Except.error PdError.keyError) .ok)
    let _ ← effectMark "write zip_heatmap.json"
    let _ ← effectMark "write flows.json"
    let _ ← effectMark ("write " ++ args.outputHtml)
    pure ()

/-! ## `mapbox_flow.py` aggregation and its `main` (lines 58-132, 239-283) -/

/-- `{c.lower(): c for c in df.columns}` (line 62): later duplicates
overwrite earlier ones. -/
def lowerColMap (cols : List String) : List (String × String) :=
  cols.foldl (fun acc c => dictSet acc (pyLower c) c) []

/-- Python `a or b` on optional column names: the first truthy value
(`None` and the empty string are falsy). -/
def pyOr (a b : Option String) : Option String :=
  match a with
  | some s => if s = "" then b else some s
  | none => b

/-- Python `not x` on an optional column name. -/
def optFalsy : Option String → Bool
  | none => true
  | some s => s = ""

/-- `df[sel]` column selection (the callers select names taken from
`df.columns`, so the missing-label `KeyError` cannot fire and absent
names are not modelled). -/
def selectCols (df : DataFrame) (sel : List String) : DataFrame :=
  ⟨sel, df.rows.map (fun r => sel.map (fun c =>
    match colIdx df c with
    | some i => cellAt r i
    | none => Value.nan))⟩

/-- `df.dropna(subset=subsetCols, how="all")`: drop the rows whose
listed cells are all NaN (no-op for an empty subset). -/
def dropNaHowAll (df : DataFrame) (subsetCols : List String) : DataFrame :=
  if subsetCols.isEmpty then df
  else
    let idxs := subsetCols.filterMap (colIdx df)
    ⟨df.cols, df.rows.filter (fun r => idxs.any (fun i => cellAt r i ≠ Value.nan))⟩

/-- `df[c].isna().all()`. -/
def colAllNa (df : DataFrame) (c : String) : Bool :=
  match colIdx df c with
  | some i => (colValsAt df i).all (fun v => v = Value.nan)
  | none => true

/-- The numeric columns of `df` outside `gvalid`, as
`.sum(numeric_only=True)` selects them. -/
def numericNonGroupCols (df : DataFrame) (gvalid : List String) : List String :=
  (df.cols.filter (fun c => c ∉ gvalid)).filter (fun c =>
    (colIdx df c).elim false (fun i => (colValsAt df i).all Value.isNumeric))

/-- One iteration of the `for df in dfs` loop of `aggregate_metrics`
(mapbox_flow.py lines 61-82): `none` is a `continue`. -/
def aggOneFrame (df : DataFrame) : Except PdError (Option DataFrame) := do
  let cols := lowerColMap df.cols
  let zipCol := pyOr (pyOr (cols.lookup "destination_zip") (cols.lookup "zip")) (cols.lookup "zipcode")
  let dmaCol := pyOr (cols.lookup "destination_dma") (cols.lookup "dma")
  let spendCol := pyOr (cols.lookup "spend") (cols.lookup "amount")
  let impCol := cols.lookup "impressions"
  let visitCol := cols.lookup "visits"
  let matchCol := pyOr (cols.lookup "num_buying_hhld_indvs") (cols.lookup "matched_visitors")
  if optFalsy zipCol && optFalsy dmaCol then pure none
  else
    let gcols := ([zipCol, dmaCol].filterMap id).filter (fun c => c ≠ "")
    let metrics := ([spendCol, impCol, visitCol, matchCol].filterMap id).filter (fun c => c ≠ "")
    let subset := dropNaHowAll (selectCols df (gcols ++ metrics)) gcols
    let gvalid := gcols.filter (fun g => !(colAllNa subset g))
    if gvalid.isEmpty then pure none
    else do
      let agg ← groupbySum subset gvalid (numericNonGroupCols subset gvalid)
      pure (some agg)

/-- `aggregate_metrics(dfs)` (mapbox_flow.py lines 58-101):
per-frame group-sums, `ValueError` when no frame was usable, then a
concat, a second group-sum over whichever canonical geography names
survived, and the standardizing rename. -/
def aggregate_metrics (dfs : List DataFrame) : Except PdError DataFrame := do
  let frames ← dfs.foldlM (fun fs df => do
    match (← aggOneFrame df) with
    | some a => pure (fs ++ [a])
    | none => pure fs) ([] : List DataFrame)
  if frames.isEmpty then .error .valueError
  else do
    let merged ← concatFrames frames
    let gcols := ["destination_zip", "zip", "zipcode", "destination_dma", "dma"].filter
      (fun c => c ∈ merged.cols)
    let merged := dropNaHowAll merged gcols
    let gvalid := gcols.filter (fun g => !(colAllNa merged g))
    let out ← groupbySum merged gvalid (numericNonGroupCols merged gvalid)
    pure (renameCols out
      ([("destination_zip", "ZIP"), ("zip", "ZIP"), ("zipcode", "ZIP"),
        ("destination_dma", "DMA")].filter (fun p => p.1 ∈ out.cols)))

/-- `prepare_flows(df)` (mapbox_flow.py lines 118-132): when origin and
destination columns exist, look their coordinates up through the
pgeocode oracle `Q` ((latitude, longitude) per row), build the
five-field records and keep the fully non-NaN ones. -/
def prepare_flows (Q : List String → List (Value × Value)) (df : DataFrame) :
    Except PdError (List (List (String × Value))) :=
  if "origin" ∈ df.cols ∧ "destination_zip" ∈ df.cols then do
    let oi ← needCol (colIdx df "origin")
    let di ← needCol (colIdx df "destination_zip")
    let si ← needCol (colIdx df "spend")
    let ocs := Q (df.rows.map (fun r => valueToString (cellAt r oi)))
    let dcs := Q (df.rows.map (fun r => valueToString (cellAt r di)))
    let recsAll := (df.rows.zip (ocs.zip dcs)).map (fun rod =>
      [("orig_latitude", rod.2.1.1), ("orig_longitude", rod.2.1.2),
       ("dest_latitude", rod.2.2.1), ("dest_longitude", rod.2.2.2),
       ("spend", cellAt rod.1 si)])
    .ok (recsAll.filter (fun rec => rec.all (fun p => p.2 ≠ Value.nan)))
  else .ok []

/-- `add_coordinates(df)` (mapbox_flow.py lines 104-111): join pgeocode
latitude/longitude columns for the ZIP column when present.  (The
master frame never already carries coordinate columns, so the
overlapping-join error is not modelled.) -/
def add_coordinates (Q : List String → List (Value × Value)) (df : DataFrame) : DataFrame :=
  match colIdx df "ZIP" with
  | none => df
  | some zi =>
      let cs := Q (df.rows.map (fun r => valueToString (cellAt r zi)))
      ⟨df.cols ++ ["latitude", "longitude"],
       (df.rows.zip cs).map (fun rc => rc.1 ++ [rc.2.1, rc.2.2])⟩

/-- The GeoJSON point loop of `mapbox_flow.main` (lines 269-280): keep
the rows with non-NaN coordinates. -/
def mapboxFeatures (df : DataFrame) : Except PdError (List Feature) := do
  let lati ← needCol (colIdx df "latitude")
  let loni ← needCol (colIdx df "longitude")
  .ok ((df.rows.filter (fun r => cellAt r lati ≠ Value.nan ∧ cellAt r loni ≠ Value.nan)).map
    (fun r => { lon := cellAt r loni, lat := cellAt r lati, props := df.cols.zip r }))

/-- I/O oracles of `mapbox_flow.main`. -/
structure MapboxOps where
  download : String → Except Unit SrcFile
  extractZip : SrcFile → Except Unit (List SrcFile)
  readers : FlowReaders
  queryPostal : List String → List (Value × Value)

/-- The two hard-coded archive URLs of `mapbox_flow.main`. -/
def mapboxUrls : List String :=
  ["https://raw.githubusercontent.com/MediaJohnD/maps/882266c266d0ca3fa73c5e167b02ec3e054c3b3c/Recovery_Results.zip",
   "https://raw.githubusercontent.com/MediaJohnD/maps/882266c266d0ca3fa73c5e167b02ec3e054c3b3c/updated%20sheets%20and%20numbers%20May%2019.zip"]

/-- `mapbox_flow.main()` (lines 239-283): check `MAPBOX_TOKEN` (falsy →
`EnvironmentError`), then per URL download, extract, load, aggregate
(`ValueError` handled as an empty aggregate) and prepare flows; concat,
add coordinates, build features and write the HTML output. -/
def mainMapbox (env : String → Option String) (ops : MapboxOps) : Trace Unit := do
  let _token ← match env "MAPBOX_TOKEN" with
    | none => traceFail
    | some t => if t = "" then traceFail else pure t
  let state ← mapboxUrls.foldlM (fun (acc : List DataFrame × List (List (String × Value))) url => do
    let zp ← effectCall ("download " ++ url) (ops.download url)
    let files ← effectCall ("extract " ++ url) (ops.extractZip zp)
    let frames := load_data_files ops.readers files
    let _ ← effectMark "load_data_files"
    if frames.isEmpty then pure acc
    else do
      let agg ← match aggregate_metrics frames with
        | .ok a => pure a
        | .error .valueError => pure DataFrame.empty
        | .error e => liftPure (Except.error e)
      let parts := if !agg.isEmptyPd then acc.1 ++ [agg] else acc.1
      let fl ← liftPure (frames.foldlM (fun fs df => do
        pure (fs ++ (← prepare_flows ops.queryPostal df))) ([] : List (List (String × Value))))
      pure (parts, acc.2 ++ fl)) (([], []) : List DataFrame × List (List (String × Value)))
  let master ← liftPure (concatFrames state.1)
  let master := add_coordinates ops.queryPostal master
  let _feats ← liftPure (mapboxFeatures master)
  let _ ← effectMark "write spend_flow_map.html"
  pure ()

/-- Spec-side description of the multi-value tokens of a geography cell:
the fragments between delimiter characters, stripped, with empties
dropped. -/
def geoTokens (s : String) : List String :=
  (((splitStr isGeoDelim s)).map pyStrip).filter (fun t => t ≠ "")

/-! ## Row records

A row compared as a record: the set of its (column name, value) pairs.
"The same set of rows" in the merge claims means equality of these
record sets, which ignores both row order and column order. -/

/-- The record of a row under the given column names. -/
def recordOf (cols : List String) (row : List Value) : Finset (String × Value) :=
  (cols.zip row).toFinset

/-- The set of row records of a frame. -/
def rowset (df : DataFrame) : Finset (Finset (String × Value)) :=
  (df.rows.map (recordOf df.cols)).toFinset

/-- Rectangular frame with distinct column names. -/
def DataFrame.WF (df : DataFrame) : Prop :=
  df.cols.Nodup ∧ ∀ row ∈ df.rows, row.length = df.cols.length

/-- Key tuple of a row, by key column names. -/
def keyOfRow (keys : List String) (df : DataFrame) (row : List Value) : List Value :=
  keys.map (fun k => (colIdx df k).elim Value.nan (cellAt row))

/-- `df` has a row with key tuple `k`. -/
def hasKey (keys : List String) (df : DataFrame) (k : List Value) : Prop :=
  ∃ row ∈ df.rows, keyOfRow keys df row = k

/-- The non-key columns of a frame. -/
def valCols (keys : List String) (df : DataFrame) : List String :=
  df.cols.filter (fun c => c ∉ keys)

/-- The record fragment carrying a key tuple. -/
def keyRec (keys : List String) (k : List Value) : Finset (String × Value) :=
  (keys.zip k).toFinset

/-- The non-key record fragment of a row. -/
def valRec (keys : List String) (df : DataFrame) (row : List Value) : Finset (String × Value) :=
  ((valCols keys df).map (fun c => (c, (colIdx df c).elim Value.nan (cellAt row)))).toFinset

/-- The all-NaN non-key record fragment of a frame. -/
def nanRec (keys : List String) (df : DataFrame) : Finset (String × Value) :=
  ((valCols keys df).map (fun c => (c, Value.nan))).toFinset

/-- The non-key fragments `df` contributes at key `k` in an outer merge:
the fragments of its rows with that key, or its NaN fragment when it has
none. -/
def contrib (keys : List String) (df : DataFrame) (k : List Value) :
    Set (Finset (String × Value)) :=
  {s | (∃ row ∈ df.rows, keyOfRow keys df row = k ∧ s = valRec keys df row) ∨
       (¬ hasKey keys df k ∧ s = nanRec keys df)}

/-- Spec-side semantics of merging three key-sharing frames by repeated
outer join: one record per key and per choice of contributed fragments,
provided at least one frame really has the key.  This expression is
visibly symmetric in the three frames. -/
def tripleSem (keys : List String) (A B C : DataFrame) :
    Set (Finset (String × Value)) :=
  {s | ∃ k a b c, a ∈ contrib keys A k ∧ b ∈ contrib keys B k ∧ c ∈ contrib keys C k ∧
       (hasKey keys A k ∨ hasKey keys B k ∨ hasKey keys C k) ∧
       s = keyRec keys k ∪ (a ∪ (b ∪ c))}

/-- A concrete `Ingest` oracle over trivial bytes: exactly one readable
CSV file, `good.csv`; every other access raises. -/
def ingestCE : Ingest Unit where
  download := fun _ => .error .readError
  fileExists := fun p => p = "good.csv"
  readBytes := fun _ => .ok ()
  zipFirstName := fun _ => .error .readError
  zipOpenFirst := fun _ => .error .readError
  readCsvBytes := fun _ => .ok ⟨["a"], [[.num 1]]⟩
  readExcelBytes := fun _ => .error .readError

/-! ## Canonical form of an outer merge (for the merge-order claim)

Once every key column exists on both sides with the same dtype kind and
the non-key column names are disjoint (so no `_x`/`_y` suffixing fires
and neither `ValueError` path triggers), `mergeOuter` produces exactly
the frame `mergeC` below, whose lookups are written through
`keyOfRow`. -/

/-- The rows `mergeOuter keys X Y` builds, in canonical form. -/
def mergeRowsC (keys : List String) (X Y : DataFrame) : List (List Value) :=
  X.rows.flatMap (fun l =>
    match Y.rows.filter (fun r => keyOfRow keys Y r = keyOfRow keys X l) with
    | [] => [l ++ List.replicate (valCols keys Y).length Value.nan]
    | _ => (Y.rows.filter (fun r => keyOfRow keys Y r = keyOfRow keys X l)).map
        (fun r => l ++ keyOfRow (valCols keys Y) Y r)) ++
  (Y.rows.filter (fun r => X.rows.all (fun l => keyOfRow keys X l ≠ keyOfRow keys Y r))).map
    (fun r => X.cols.map (fun c =>
        if c ∈ keys then (colIdx Y c).elim Value.nan (cellAt r) else Value.nan) ++
      keyOfRow (valCols keys Y) Y r)

/-- The merged frame in canonical form. -/
def mergeC (keys : List String) (X Y : DataFrame) : DataFrame :=
  ⟨X.cols ++ valCols keys Y, mergeRowsC keys X Y⟩

/-- Hypotheses under which an outer merge behaves transparently: both
frames are rectangular with distinct column names, both carry every key
column, their non-key column names are disjoint (no suffixing, so no
`MergeError`) and every key column has the same dtype kind on both sides
(so no mixed-kind `ValueError`). -/
def MergeReady (keys : List String) (X Y : DataFrame) : Prop :=
  X.WF ∧ Y.WF ∧ (∀ k ∈ keys, k ∈ X.cols) ∧ (∀ k ∈ keys, k ∈ Y.cols) ∧
  (∀ c ∈ valCols keys X, c ∉ valCols keys Y) ∧
  (∀ k ∈ keys, kindNumeric X k = kindNumeric Y k)

/-- Three-frame version of `MergeReady`, symmetric in the frames. -/
def TripleReady (keys : List String) (A B C : DataFrame) : Prop :=
  A.WF ∧ B.WF ∧ C.WF ∧
  (∀ k ∈ keys, k ∈ A.cols) ∧ (∀ k ∈ keys, k ∈ B.cols) ∧ (∀ k ∈ keys, k ∈ C.cols) ∧
  (∀ c ∈ valCols keys A, c ∉ valCols keys B) ∧
  (∀ c ∈ valCols keys A, c ∉ valCols keys C) ∧
  (∀ c ∈ valCols keys B, c ∉ valCols keys C) ∧
  (∀ k ∈ keys, kindNumeric A k = kindNumeric B k) ∧
  (∀ k ∈ keys, kindNumeric A k = kindNumeric C k) ∧
  (∀ k ∈ keys, kindNumeric B k = kindNumeric C k)

instance (df : DataFrame) : Decidable df.WF :=
  decidable_of_iff (df.cols.Nodup ∧ ∀ row ∈ df.rows, row.length = df.cols.length) Iff.rfl

instance (keys : List String) (A B C : DataFrame) : Decidable (TripleReady keys A B C) :=
  decidable_of_iff (A.WF ∧ B.WF ∧ C.WF ∧
    (∀ k ∈ keys, k ∈ A.cols) ∧ (∀ k ∈ keys, k ∈ B.cols) ∧ (∀ k ∈ keys, k ∈ C.cols) ∧
    (∀ c ∈ valCols keys A, c ∉ valCols keys B) ∧
    (∀ c ∈ valCols keys A, c ∉ valCols keys C) ∧
    (∀ c ∈ valCols keys B, c ∉ valCols keys C) ∧
    (∀ k ∈ keys, kindNumeric A k = kindNumeric B k) ∧
    (∀ k ∈ keys, kindNumeric A k = kindNumeric C k) ∧
    (∀ k ∈ keys, kindNumeric B k = kindNumeric C k)) Iff.rfl

/-! ## Concrete fixtures for the merge-order claim -/

/-- Two frames sharing the non-key column name `v`, plus a third. -/
def c4A : DataFrame := ⟨["id", "v"], [[.num 1, .num 10]]⟩

/-- Second frame with the colliding column `v`. -/
def c4B : DataFrame := ⟨["id", "v"], [[.num 1, .num 20]]⟩

/-- Third frame with its own column `w`. -/
def c4C : DataFrame := ⟨["id", "w"], [[.num 1, .num 5]]⟩

/-- The repo test's three id-keyed frames (disjoint value columns). -/
def cwA : DataFrame := ⟨["id", "a"], [[.num 1, .num 10], [.num 2, .num 20]]⟩

/-- Second test frame. -/
def cwB : DataFrame := ⟨["id", "b"], [[.num 2, .num 30], [.num 3, .num 40]]⟩

/-- Third test frame. -/
def cwC : DataFrame := ⟨["id", "c"], [[.num 3, .num 50], [.num 4, .num 60]]⟩

/-! ## Concrete fixtures for the geo-join / heat-feature claim -/

/-- Spend frame whose `zip` cell needs zero-padding. -/
def c5df : DataFrame := ⟨["zip", "v"], [[.str "601", .num 2]]⟩

/-- ZIP→DMA mapping table with the padded key. -/
def c5map : DataFrame := ⟨["ZIP", "dma"], [[.str "00601", .str "X"]]⟩

/-- `standardize_zip c5df "zip"` (checked by `decide`). -/
def c5std : DataFrame := ⟨["zip", "v"], [[.str "00601", .num 2]]⟩

/-- `map_zip_to_dma c5df "zip" c5map` (checked by `decide`). -/
def c5M : DataFrame := ⟨["zip", "v", "ZIP", "dma"],
  [[.str "00601", .num 2, .str "00601", .str "X"]]⟩

/-- The one standardized row of `c5std`. -/
def c5lrow : List Value := [.str "00601", .num 2]

/-- Aggregated frame for the heat-feature half: one ZIP present in the
reference table, one absent. -/
def c5hdf : DataFrame := ⟨["ZIP", "spend"], [[.str "601", .num 3], [.str "999", .num 4]]⟩

/-- ZIP→(longitude, latitude) reference table. -/
def c5zl : DataFrame :=
  ⟨["ZIP", "longitude", "latitude"], [[.str "00601", .num 10, .num 20]]⟩

/-- `create_heatmap_features c5hdf c5zl` (checked by `decide`). -/
def c5fs : List Feature := [⟨.num 10, .num 20,
  [("ZIP", .str "601"), ("spend", .num 3), ("value", .num 3)]⟩]

/-! # Theorems -/

/-! ## Column-role detection lemmas -/

theorem findZipCol_none_iff (cols : List String) :
    findZipCol cols = none ↔ ∀ c ∈ cols, strContains c "zip" = false := by
  induction cols with
  | nil => simp [findZipCol]
  | cons c rest ih =>
      by_cases h : strContains c "zip" = true
      · simp [findZipCol, h]
      · simp only [Bool.not_eq_true] at h
        simp [findZipCol, h, ih]

theorem findZipCol_some (cols : List String) (c : String) (h : findZipCol cols = some c) :
    strContains c "zip" = true ∧
    ∃ pre suf, cols = pre ++ c :: suf ∧ ∀ b ∈ pre, strContains b "zip" = false := by
  induction cols with
  | nil => simp [findZipCol] at h
  | cons d rest ih =>
      by_cases hd : strContains d "zip" = true
      · simp only [findZipCol, hd, if_pos] at h
        cases h
        exact ⟨hd, [], rest, rfl, by simp⟩
      · simp only [Bool.not_eq_true] at hd
        simp only [findZipCol, hd, Bool.false_eq_true, if_false] at h
        obtain ⟨hc, pre, suf, hcols, hpre⟩ := ih h
        refine ⟨hc, d :: pre, suf, by rw [hcols]; rfl, ?_⟩
        intro b hb
        rcases List.mem_cons.mp hb with rfl | hb'
        · exact hd
        · exact hpre b hb'

theorem findDmaCol_none_iff (cols : List String) :
    findDmaCol cols = none ↔
      ∀ c ∈ cols, (strContains c "dma" && !(pyStartsWith c "exclude")) = false := by
  induction cols with
  | nil => simp [findDmaCol]
  | cons c rest ih =>
      by_cases h : (strContains c "dma" && !(pyStartsWith c "exclude")) = true
      · constructor
        · intro hn
          rw [findDmaCol, if_pos h] at hn
          exact absurd hn (by simp)
        · intro hall
          exact absurd h (by simp [hall c (List.mem_cons_self c rest)])
      · rw [findDmaCol, if_neg h]
        rw [ih]
        constructor
        · intro hall b hb
          rcases List.mem_cons.mp hb with rfl | hb'
          · simp only [Bool.not_eq_true] at h
            exact h
          · exact hall b hb'
        · intro hall b hb
          exact hall b (List.mem_cons_of_mem c hb)

theorem findDmaCol_some (cols : List String) (c : String) (h : findDmaCol cols = some c) :
    (strContains c "dma" = true ∧ pyStartsWith c "exclude" = false) ∧
    ∃ pre suf, cols = pre ++ c :: suf ∧
      ∀ b ∈ pre, (strContains b "dma" && !(pyStartsWith b "exclude")) = false := by
  induction cols with
  | nil => simp [findDmaCol] at h
  | cons d rest ih =>
      by_cases hd : (strContains d "dma" && !(pyStartsWith d "exclude")) = true
      · rw [findDmaCol, if_pos hd] at h
        have hdc : d = c := by injection h
        subst hdc
        have h12 : strContains d "dma" = true ∧ pyStartsWith d "exclude" = false := by
          constructor
          · exact Bool.and_elim_left hd
          · simpa using Bool.and_elim_right hd
        exact ⟨h12, [], rest, rfl, by simp⟩
      · rw [findDmaCol, if_neg hd] at h
        obtain ⟨hc, pre, suf, hcols, hpre⟩ := ih h
        refine ⟨hc, d :: pre, suf, by rw [hcols]; rfl, ?_⟩
        intro b hb
        rcases List.mem_cons.mp hb with rfl | hb'
        · simpa using hd
        · exact hpre b hb'

/-- Evaluation of `aggregate_by_geo` by its stages, used to compute it
on concrete and symbolic frames without unfolding the string machinery. -/
theorem aggregate_by_geo_steps (df dfE dfN agg : DataFrame) (zc : String)
    (dmaOpt : Option String) (ncols : List String)
    (h0 : findZipCol (df.cols.map pyLower) = some zc)
    (h1 : findDmaCol (df.cols.map pyLower) = dmaOpt)
    (h2 : expand_zip_list zc ⟨df.cols.map pyLower, df.rows⟩ = dfE)
    (h3 : numericCols dfE = ncols)
    (h4 : normalize_numeric dfE ncols = some dfN)
    (h5 : groupbySum dfN (zc :: dmaOpt.toList) ncols = .ok agg) :
    aggregate_by_geo df = .ok (renameCols agg
      (if dmaOpt.getD "dma" = zc then [(zc, "DMA")]
       else [(zc, "ZIP"), (dmaOpt.getD "dma", "DMA")])) := by
  cases dmaOpt with
  | none =>
      simp only [Option.toList] at h5
      simp only [aggregate_by_geo, h0, h1, h2, h3, h4, h5, Option.getD]
  | some d =>
      simp only [Option.toList] at h5
      simp only [aggregate_by_geo, h0, h1, h2, h3, h4, h5, Option.getD]

/-- C2 (counterexample): the ZIP-role scan of `aggregate_by_geo` has no
`exclude` filter, so a column named `exclude_zip` is chosen for the ZIP
role even though it starts with `"exclude"`, and the aggregate is keyed
on it (were the claim right, no ZIP column would be found and the empty
frame returned) — contradicting the claim that an `exclude`-prefixed
column is never chosen for either role. -/
theorem c2_counterexample :
    findZipCol (["exclude_zip", "region"].map pyLower) = some "exclude_zip" ∧
    pyStartsWith "exclude_zip" "exclude" = true ∧
    aggregate_by_geo ⟨["exclude_zip", "region"], [[.str "10001", .str "east"]]⟩ =
      .ok ⟨["ZIP"], [[.str "10001"]]⟩ ∧
    aggregate_by_geo ⟨["exclude_zip", "region"], [[.str "10001", .str "east"]]⟩ ≠
      .ok DataFrame.empty := by
  refine ⟨by decide, by decide, by decide, by decide⟩

/-- C2 (amended): the ZIP-role column is the first column (in order)
whose lowercased name contains `"zip"` — with no `exclude` filter — and
the DMA-role column is the first whose lowercased name contains `"dma"`
and does not start with `"exclude"`; when no column matches, none is
chosen.  (`aggregate_by_geo` runs these scans on the lowercased column
names.) -/
theorem c2_theorem :
    (∀ cols : List String, findZipCol cols = none ↔
       ∀ c ∈ cols, strContains c "zip" = false) ∧
    (∀ cols c, findZipCol cols = some c →
       strContains c "zip" = true ∧
       ∃ pre suf, cols = pre ++ c :: suf ∧ ∀ b ∈ pre, strContains b "zip" = false) ∧
    (∀ cols : List String, findDmaCol cols = none ↔
       ∀ c ∈ cols, (strContains c "dma" && !(pyStartsWith c "exclude")) = false) ∧
    (∀ cols c, findDmaCol cols = some c →
       (strContains c "dma" = true ∧ pyStartsWith c "exclude" = false) ∧
       ∃ pre suf, cols = pre ++ c :: suf ∧
         ∀ b ∈ pre, (strContains b "dma" && !(pyStartsWith b "exclude")) = false) :=
  ⟨findZipCol_none_iff, findZipCol_some, findDmaCol_none_iff, findDmaCol_some⟩

/-- C2 (witness): the characterization applied to a concrete column
list. -/
theorem c2_witness :
    strContains "zipc" "zip" = true ∧
    ∃ pre suf, ["a", "zipc"] = pre ++ "zipc" :: suf ∧
      ∀ b ∈ pre, strContains b "zip" = false :=
  c2_theorem.2.1 ["a", "zipc"] "zipc" (by decide)

/-- C1 (counterexample): `aggregate_by_geo` min-max normalizes every
numeric column before summing (lines 128-129), so two rows with ZIP
`"10001"` and spend `100`/`150` aggregate to one row with spend
`0 + 1 = 1`, not `250`. -/
theorem c1_counterexample :
    aggregate_by_geo ⟨["ZIP", "spend"], [[.str "10001", .num 100], [.str "10001", .num 150]]⟩ =
      .ok ⟨["ZIP", "spend"], [[.str "10001", .num 1]]⟩ ∧
    aggregate_by_geo ⟨["ZIP", "spend"], [[.str "10001", .num 100], [.str "10001", .num 150]]⟩ ≠
      .ok ⟨["ZIP", "spend"], [[.str "10001", .num 250]]⟩ := by
  have h4 : normalize_numeric
      ⟨["zip", "spend"], [[.str "10001", .num 100], [.str "10001", .num 150]]⟩ ["spend"] =
      some ⟨["zip", "spend"], [[.str "10001", .num 0], [.str "10001", .num 1]]⟩ := by
    simp [normalize_numeric, normalizeColStep, colIdx, idxOfCol, colValsAt, cellAt,
      seriesMin, seriesMax, vmin, vmax, vsub, vdiv, normCell, min_def, max_def,
      mapRowsM]
    try norm_num
  have h5 : groupbySum
      ⟨["zip", "spend"], [[.str "10001", .num 0], [.str "10001", .num 1]]⟩ ["zip"] ["spend"] =
      .ok ⟨["zip", "spend"], [[.str "10001", .num 1]]⟩ := by
    simp [groupbySum, colIdx, idxOfCol, colValsAt, cellAt, sortKeys, dedupKeys,
      insertKeySorted, keyLe, valLe, sumVals]
    try norm_num
  have hmain := aggregate_by_geo_steps
    ⟨["ZIP", "spend"], [[.str "10001", .num 100], [.str "10001", .num 150]]⟩
    ⟨["zip", "spend"], [[.str "10001", .num 100], [.str "10001", .num 150]]⟩
    ⟨["zip", "spend"], [[.str "10001", .num 0], [.str "10001", .num 1]]⟩
    ⟨["zip", "spend"], [[.str "10001", .num 1]]⟩ "zip" none ["spend"]
    (by decide) (by decide) (by decide) (by decide) h4 h5
  have hres : aggregate_by_geo
      ⟨["ZIP", "spend"], [[.str "10001", .num 100], [.str "10001", .num 150]]⟩ =
      .ok ⟨["ZIP", "spend"], [[.str "10001", .num 1]]⟩ := by
    simpa using hmain
  refine ⟨hres, ?_⟩
  rw [hres]
  intro hcontra
  simp only [Except.ok.injEq, DataFrame.mk.injEq] at hcontra
  have : (1 : Rat) = 250 := by
    have h2 := hcontra.2
    simp only [List.cons.injEq, Value.num.injEq, Value.str.injEq] at h2
    exact h2.1.2.1
  norm_num at this

/-- C1 (amended): for a two-row table whose ZIP column holds the same
single-token value `z` twice, whose spend column holds numbers `a < b`,
and with a non-numeric `region` column alongside, `aggregate_by_geo`
returns exactly one row for `z` whose spend is `1` — the sum of the
min-max normalized spends `0` and `1`, not of the raw values — and the
non-numeric column is dropped from the aggregate. -/
theorem c1_theorem (z r1 r2 : String) (a b : Rat)
    (hsplit : splitStr isGeoDelim z = [z]) (hstrip : pyStrip z = z) (hne : z ≠ "")
    (hab : a < b) :
    aggregate_by_geo ⟨["zip", "region", "spend"],
      [[.str z, .str r1, .num a], [.str z, .str r2, .num b]]⟩ =
      .ok ⟨["ZIP", "spend"], [[.str z, .num 1]]⟩ := by
  have h2 : expand_zip_list "zip" ⟨["zip", "region", "spend"],
      [[.str z, .str r1, .num a], [.str z, .str r2, .num b]]⟩ =
      ⟨["zip", "region", "spend"], [[.str z, .str r1, .num a], [.str z, .str r2, .num b]]⟩ := by
    simp [expand_zip_list, colIdx, idxOfCol, expandRow, cellAt, valueToString, hsplit, hstrip,
      hne, List.set]
  have h3 : numericCols ⟨["zip", "region", "spend"],
      [[.str z, .str r1, .num a], [.str z, .str r2, .num b]]⟩ = ["spend"] := by
    simp [numericCols, colValsAt, cellAt, Value.isNumeric, List.enum]
  have h4 : normalize_numeric ⟨["zip", "region", "spend"],
      [[.str z, .str r1, .num a], [.str z, .str r2, .num b]]⟩ ["spend"] =
      some ⟨["zip", "region", "spend"], [[.str z, .str r1, .num 0], [.str z, .str r2, .num 1]]⟩ := by
    simp [normalize_numeric, normalizeColStep, colIdx, idxOfCol, colValsAt, cellAt,
      seriesMin, seriesMax, vmin, vmax, vsub, vdiv, normCell, mapRowsM,
      min_eq_left hab.le, max_eq_right hab.le, hab.ne', sub_self, zero_div,
      div_self (sub_ne_zero.mpr hab.ne'), List.set]
  have h5 : groupbySum ⟨["zip", "region", "spend"],
      [[.str z, .str r1, .num 0], [.str z, .str r2, .num 1]]⟩ ["zip"] ["spend"] =
      .ok ⟨["zip", "spend"], [[.str z, .num 1]]⟩ := by
    simp [groupbySum, colIdx, idxOfCol, colValsAt, cellAt, sortKeys, dedupKeys,
      insertKeySorted, keyLe, valLe, sumVals]
  have hmain := aggregate_by_geo_steps
    ⟨["zip", "region", "spend"], [[.str z, .str r1, .num a], [.str z, .str r2, .num b]]⟩
    ⟨["zip", "region", "spend"], [[.str z, .str r1, .num a], [.str z, .str r2, .num b]]⟩
    ⟨["zip", "region", "spend"], [[.str z, .str r1, .num 0], [.str z, .str r2, .num 1]]⟩
    ⟨["zip", "spend"], [[.str z, .num 1]]⟩ "zip" none ["spend"]
    (by show findZipCol (["zip", "region", "spend"].map pyLower) = some "zip"; decide)
    (by show findDmaCol (["zip", "region", "spend"].map pyLower) = none; decide)
    (by simpa using h2) h3 h4 h5
  simpa [renameCols] using hmain

/-- C1 (witness): the amended theorem at the claim's own numbers. -/
theorem c1_witness :
    aggregate_by_geo ⟨["zip", "region", "spend"],
      [[.str "10001", .str "east", .num 100], [.str "10001", .str "west", .num 150]]⟩ =
      .ok ⟨["ZIP", "spend"], [[.str "10001", .num 1]]⟩ :=
  c1_theorem "10001" "east" "west" 100 150 (by decide) (by decide) (by decide) (by norm_num)

/-! ## C3: `expand_zip_list` -/

theorem cellAt_set_ne (row : List Value) (v : Value) {i j : Nat} (hij : j ≠ i) :
    cellAt (row.set i v) j = cellAt row j := by
  unfold cellAt
  induction row generalizing i j with
  | nil => simp
  | cons a rest ih =>
      cases i with
      | zero =>
          cases j with
          | zero => exact absurd rfl hij
          | succ j' => simp [List.set]
      | succ i' =>
          cases j with
          | zero => simp [List.set]
          | succ j' =>
              have hij' : j' ≠ i' := fun hh => hij (by rw [hh])
              simpa [List.set] using ih hij'

theorem expandRow_eq (i : Nat) (row : List Value) :
    expandRow i row =
      (geoTokens (valueToString (cellAt row i))).map (fun t => row.set i (.str t)) := by
  unfold expandRow geoTokens
  generalize splitStr isGeoDelim (valueToString (cellAt row i)) = zs
  induction zs with
  | nil => rfl
  | cons z rest ih =>
      by_cases h : pyStrip z = ""
      · simpa [h] using ih
      · simpa [h] using ih

theorem foldr_append_eq_flatMap (f : List Value → List (List Value)) (l : List (List Value)) :
    l.foldr (fun row acc => f row ++ acc) [] = l.flatMap f := by
  induction l with
  | nil => rfl
  | cons r rest ih => simp [List.flatMap_cons, ih]

/-- C3: when the geography field is present (at column index `i`),
`expand_zip_list` emits, for each input row in order, exactly one output
row per non-empty stripped token of the split cell text, with the
geography cell set to the token; every other cell is untouched
(`row.set` only changes position `i`).  The claim's concrete instance:
a row with geography `"10001, 10002"` becomes exactly two rows carrying
the other fields verbatim. -/
theorem c3_theorem (z : String) (df : DataFrame) (i : Nat) (h : colIdx df z = some i) :
    (expand_zip_list z df).rows =
      df.rows.flatMap (fun row =>
        (geoTokens (valueToString (cellAt row i))).map (fun t => row.set i (.str t))) ∧
    ((expand_zip_list z df).rows ≠ [] → (expand_zip_list z df).cols = df.cols) ∧
    (∀ row : List Value, ∀ v : Value, ∀ j, j ≠ i → cellAt (row.set i v) j = cellAt row j) ∧
    expand_zip_list "zips" ⟨["zips", "spend"], [[.str "10001, 10002", .num 7]]⟩ =
      ⟨["zips", "spend"], [[.str "10001", .num 7], [.str "10002", .num 7]]⟩ := by
  have hfg : df.rows.flatMap (expandRow i) =
      df.rows.flatMap (fun row =>
        (geoTokens (valueToString (cellAt row i))).map (fun t => row.set i (.str t))) :=
    congrArg _ (funext fun row => expandRow_eq i row)
  have hrows : (expand_zip_list z df).rows =
      df.rows.flatMap (fun row =>
        (geoTokens (valueToString (cellAt row i))).map (fun t => row.set i (.str t))) := by
    simp only [expand_zip_list, h]
    rw [foldr_append_eq_flatMap (expandRow i) df.rows, hfg]
    by_cases he : (df.rows.flatMap (fun row =>
        (geoTokens (valueToString (cellAt row i))).map (fun t => row.set i (.str t)))).isEmpty
    · rw [if_pos he]
      simp [DataFrame.empty, List.isEmpty_iff.mp he]
    · rw [if_neg he]
  refine ⟨hrows, ?_, ?_, ?_⟩
  · intro hne
    simp only [expand_zip_list, h] at hne ⊢
    by_cases he : (df.rows.foldr (fun row acc => expandRow i row ++ acc) []).isEmpty
    · rw [if_pos he] at hne
      exact absurd rfl hne
    · rw [if_neg he]
  · intro row v j hij
    exact cellAt_set_ne row v hij
  · decide

/-- C3 (witness): the expansion theorem applied at the claim's concrete
row. -/
theorem c3_witness :
    expand_zip_list "zips" ⟨["zips", "spend"], [[.str "10001, 10002", .num 7]]⟩ =
      ⟨["zips", "spend"], [[.str "10001", .num 7], [.str "10002", .num 7]]⟩ :=
  ( c3_theorem "zips" ⟨["zips", "spend"], [[.str "10001, 10002", .num 7]]⟩ 0 (by decide)).2.2.2

/-! ## C9: no ZIP-like column -/

/-- C9: when no column name, lowercased, contains `"zip"`,
`aggregate_by_geo` returns the empty frame and raises nothing (and, the
embedding being pure, the input frame is untouched). -/
theorem c9_theorem (df : DataFrame)
    (h : ∀ c ∈ df.cols, strContains (pyLower c) "zip" = false) :
    aggregate_by_geo df = .ok DataFrame.empty := by
  have hnone : findZipCol (df.cols.map pyLower) = none := by
    rw [findZipCol_none_iff]
    intro c hc
    obtain ⟨c0, hc0, rfl⟩ := List.mem_map.mp hc
    exact h c0 hc0
  simp [aggregate_by_geo, hnone]

/-- C9 (witness). -/
theorem c9_witness :
    aggregate_by_geo ⟨["region", "spend"], [[.str "east", .num 5]]⟩ = .ok DataFrame.empty :=
  c9_theorem ⟨["region", "spend"], [[.str "east", .num 5]]⟩ (by decide)

/-! ## C10, C6, C7 theorems -/

theorem exc_error_bind {ε α β : Type} (e : ε) (f : α → Except ε β) :
    (Except.error e >>= f) = Except.error e := rfl

theorem exc_ok_bind {ε α β : Type} (a : α) (f : α → Except ε β) :
    (Except.ok a >>= f) = f a := rfl

theorem exc_pure_eq_ok {ε α : Type} (a : α) : (pure a : Except ε α) = Except.ok a := rfl

/-- C10 counterexample: `pd.merge` itself raises `ValueError` when a key
column is int64 on one side and object on the other, so a NONEMPTY list
can raise `ValueError` too — the frozen "if and only if the list is
empty" fails.  Here `id` holds the number `1` in the first frame and the
string `"x"` in the second. -/
theorem c10_counterexample :
    merge_on_keys [⟨["id"], [[.num 1]]⟩, ⟨["id"], [[.str "x"]]⟩] ["id"]
      = .error .valueError ∧
    [(⟨["id"], [[.num 1]]⟩ : DataFrame), ⟨["id"], [[.str "x"]]⟩] ≠ [] := by decide

/-- C10 (amended): an empty list raises `ValueError`, and a singleton
list returns its frame unchanged without raising; on longer lists
`pd.merge` itself can also raise `ValueError` (mixed-kind key columns,
or a suffix-collision `MergeError`, which subclasses `ValueError`), so
emptiness is sufficient for `ValueError` but not necessary. -/
theorem c10_theorem :
    (∀ keys : List String, merge_on_keys [] keys = .error .valueError) ∧
    (∀ (df : DataFrame) (keys : List String), merge_on_keys [df] keys = .ok df) := by
  constructor
  · intro keys
    rfl
  · intro df keys
    simp only [merge_on_keys, List.foldlM]
    rfl

/-- Witness for `c10_theorem` at concrete inputs. -/
theorem c10_witness :
    merge_on_keys [] ["id"] = .error .valueError ∧
    merge_on_keys [⟨["id"], [[.num 1]]⟩] ["id"] = .ok ⟨["id"], [[.num 1]]⟩ :=
  ⟨c10_theorem.1 ["id"], c10_theorem.2 ⟨["id"], [[.num 1]]⟩ ["id"]⟩

/-- C6 (counterexample): `load_sources` has no exception handling — with
one readable file `good.csv` and one missing file, it raises
`FileNotFoundError` instead of skipping the bad file and returning the
dataset parsed from the rest. -/
theorem c6_counterexample :
    load_sources ingestCE ["good.csv", "missing.csv"] = .error .fileNotFound ∧
    load_sources ingestCE ["good.csv"] = .ok [("good", ⟨["a"], [[.num 1]]⟩)] ∧
    load_sources ingestCE ["good.csv", "missing.csv"] ≠
      .ok [("good", ⟨["a"], [[.num 1]]⟩)] := by
  refine ⟨by decide, by decide, by decide⟩

/-- C6 (amended): `load_spreadsheets` and `load_data_files` silently
skip a file whose read raises, returning exactly the datasets of the
remaining files; `load_sources` does not — any `load_dataset` failure
propagates and no datasets are returned. -/
theorem c6_theorem :
    (∀ (R : SpreadReaders) (l1 l2 : List SrcFile) (f : SrcFile),
       readOneSpreadsheet R f = .error () →
       load_spreadsheets R (l1 ++ f :: l2) = load_spreadsheets R (l1 ++ l2)) ∧
    (∀ (R : FlowReaders) (l1 l2 : List SrcFile) (p : SrcFile),
       readOneDataFile R p = .error () →
       load_data_files R (l1 ++ p :: l2) = load_data_files R (l1 ++ l2)) ∧
    (∀ (B : Type) (I : Ingest B) (l1 l2 : List String) (src : String) (e : IngestError),
       load_dataset I src = .error e →
       ∃ e', load_sources I (l1 ++ src :: l2) = .error e') := by
  refine ⟨?_, ?_, ?_⟩
  · intro R l1 l2 f h
    simp [load_spreadsheets, List.foldl_append, h]
  · intro R l1 l2 p h
    simp [load_data_files, List.foldl_append, h]
  · intro B I l1 l2 src e h
    have key : ∀ (l1 : List String) (acc : List (String × DataFrame)),
        ∃ e', (l1 ++ src :: l2).foldlM (fun data s => do
          pure (dictSet data (pathStem s) (← load_dataset I s))) acc = .error e' := by
      intro l1
      induction l1 with
      | nil =>
          intro acc
          refine ⟨e, ?_⟩
          rw [List.nil_append, List.foldlM_cons]
          rw [h]
          rfl
      | cons x xs ih =>
          intro acc
          rw [List.cons_append, List.foldlM_cons]
          cases hx : load_dataset I x with
          | error ex => exact ⟨ex, rfl⟩
          | ok dfx =>
              obtain ⟨e', he'⟩ := ih (dictSet acc (pathStem x) dfx)
              exact ⟨e', he'⟩
    simpa [load_sources] using key l1 []

/-- C6 (witness): skipping applied at a concrete failing file. -/
theorem c6_witness :
    load_spreadsheets
      ⟨fun _ => .error (), fun _ => .error (), fun _ => .error (), fun _ => .error ()⟩
      ([⟨"g", ".txt"⟩] ++ ⟨"bad", ".csv"⟩ :: [⟨"h", ".txt"⟩]) =
    load_spreadsheets
      ⟨fun _ => .error (), fun _ => .error (), fun _ => .error (), fun _ => .error ()⟩
      ([⟨"g", ".txt"⟩] ++ [⟨"h", ".txt"⟩]) :=
  c6_theorem.1 ⟨fun _ => .error (), fun _ => .error (), fun _ => .error (), fun _ => .error ()⟩
    [⟨"g", ".txt"⟩] [⟨"h", ".txt"⟩] ⟨"bad", ".csv"⟩ (by decide)

/-- C7: with `MAPBOX_TOKEN` unset or empty, both Mapbox `main`s fail the
token check before performing any effect: the run aborts with an empty
effect log — no download, extraction, data loading, or output write
happens. -/
theorem c7_theorem (env : String → Option String)
    (henv : env "MAPBOX_TOKEN" = none ∨ env "MAPBOX_TOKEN" = some "") :
    (∀ (args : ClientArgs) (ops : ClientOps), mainClient env args ops [] = (none, [])) ∧
    (∀ ops : MapboxOps, mainMapbox env ops [] = (none, [])) := by
  constructor
  · intro args ops
    rcases henv with hk | hk
    · unfold mainClient
      rw [hk]
      rfl
    · unfold mainClient
      rw [hk]
      rfl
  · intro ops
    rcases henv with hk | hk
    · unfold mainMapbox
      rw [hk]
      rfl
    · unfold mainMapbox
      rw [hk]
      rfl

/-- C7 (witness): a run with no environment at all. -/
theorem c7_witness :
    mainClient (fun _ => none) ⟨"z1", "z2", "ll", "out"⟩
      ⟨fun _ => .error (), fun _ => .error (),
       ⟨fun _ => .error (), fun _ => .error (), fun _ => .error (), fun _ => .error ()⟩,
       fun _ => .error ()⟩ [] = (none, []) ∧
    mainMapbox (fun _ => none)
      ⟨fun _ => .error (), fun _ => .error (),
       ⟨fun _ => .error (), fun _ => .error ()⟩, fun _ => []⟩ [] = (none, []) :=
  ⟨(c7_theorem (fun _ => none) (Or.inl rfl)).1 _ _,
   (c7_theorem (fun _ => none) (Or.inl rfl)).2 _⟩



/-! ## C8: `normalize_numeric` invariants -/

theorem idxOfCol_get {c : String} : ∀ {cols : List String} {i : Nat},
    idxOfCol c cols = some i → cols.get? i = some c := by
  intro cols
  induction cols with
  | nil => intro i h; cases h
  | cons d rest ih =>
      intro i h
      rw [idxOfCol] at h
      by_cases hd : d = c
      · rw [if_pos hd] at h
        injection h with h'
        subst h'
        simp [hd]
      · rw [if_neg hd] at h
        cases hr : idxOfCol c rest with
        | none => rw [hr] at h; cases h
        | some j =>
            rw [hr] at h
            injection h with h'
            subst h'
            simpa using ih hr

theorem idxOfCol_lt {c : String} {cols : List String} {i : Nat}
    (h : idxOfCol c cols = some i) : i < cols.length := by
  have hg := idxOfCol_get h
  by_contra hlt
  rw [List.get?_eq_none.mpr (le_of_not_lt hlt)] at hg
  cases hg

theorem colIdx_get {df : DataFrame} {c : String} {i : Nat}
    (h : colIdx df c = some i) : df.cols.get? i = some c :=
  idxOfCol_get h

theorem colIdx_inj {df : DataFrame} {c cP : String} {i : Nat}
    (h : colIdx df c = some i) (hP : colIdx df cP = some i) : c = cP := by
  have g := colIdx_get h
  have gP := colIdx_get hP
  rw [g] at gP
  injection gP

theorem cellAt_set_eq (row : List Value) (v : Value) (i : Nat) :
    cellAt (row.set i v) i = if i < row.length then v else Value.nan := by
  unfold cellAt
  induction row generalizing i with
  | nil => simp
  | cons a rest ih =>
      cases i with
      | zero => simp [List.set]
      | succ iP => simpa [List.set, Nat.succ_lt_succ_iff] using ih iP

theorem mapRowsM_forall (f : List Value → Option (List Value)) :
    ∀ {rows rowsP : List (List Value)}, mapRowsM f rows = some rowsP →
      List.Forall₂ (fun r rP => f r = some rP) rows rowsP := by
  intro rows
  induction rows with
  | nil =>
      intro rowsP h
      rw [mapRowsM] at h
      injection h with hP
      subst hP
      exact List.Forall₂.nil
  | cons r rest ih =>
      intro rowsP h
      rw [mapRowsM] at h
      cases hf : f r with
      | none => rw [hf] at h; cases h
      | some r0 =>
          rw [hf] at h
          cases hr : mapRowsM f rest with
          | none => rw [hr] at h; cases h
          | some rest0 =>
              rw [hr] at h
              injection h with hP
              subst hP
              exact List.Forall₂.cons hf (ih hr)

theorem foldl_vmin_none (rest : List Value) :
    rest.foldl (fun acc v => do vmin (← acc) v) none = none := by
  induction rest with
  | nil => rfl
  | cons v vs ih => simpa using ih

theorem foldl_vmax_none (rest : List Value) :
    rest.foldl (fun acc v => do vmax (← acc) v) none = none := by
  induction rest with
  | nil => rfl
  | cons v vs ih => simpa using ih

theorem foldl_vmin_num : ∀ (rest : List Value) (a : Value) (m : Rat),
    rest.foldl (fun acc v => do vmin (← acc) v) (some a) = some (.num m) →
    (∃ qa, a = .num qa ∧ m ≤ qa) ∧ (∀ q : Rat, .num q ∈ rest → m ≤ q) := by
  intro rest
  induction rest with
  | nil =>
      intro a m h
      injection h with hP
      subst hP
      exact ⟨⟨m, rfl, le_refl m⟩, by simp⟩
  | cons v vs ih =>
      intro a m h
      rw [List.foldl_cons] at h
      have hred : ((do vmin (← some a) v) : Option Value) = vmin a v := rfl
      rw [hred] at h
      cases hv : vmin a v with
      | none =>
          rw [hv, foldl_vmin_none] at h
          cases h
      | some w =>
          rw [hv] at h
          obtain ⟨⟨qw, hqw, hmqw⟩, hrest⟩ := ih w m h
          subst hqw
          cases a with
          | str sa =>
              cases v with
              | str sv => simp [vmin] at hv
              | num qv => simp [vmin] at hv
              | nan => simp [vmin] at hv
          | nan =>
              cases v with
              | str sv => simp [vmin] at hv
              | num qv => simp [vmin] at hv
              | nan => simp [vmin] at hv
          | num qa =>
              cases v with
              | str sv => simp [vmin] at hv
              | nan => simp [vmin] at hv
              | num qv =>
                  simp only [vmin, Option.some.injEq, Value.num.injEq] at hv
                  subst hv
                  refine ⟨⟨qa, rfl, le_trans hmqw (min_le_left qa qv)⟩, ?_⟩
                  intro q hq
                  rcases List.mem_cons.mp hq with hEq | hmem
                  · injection hEq with hqv
                    subst hqv
                    exact le_trans hmqw (min_le_right qa q)
                  · exact hrest q hmem

theorem foldl_vmax_num : ∀ (rest : List Value) (a : Value) (m : Rat),
    rest.foldl (fun acc v => do vmax (← acc) v) (some a) = some (.num m) →
    (∃ qa, a = .num qa ∧ qa ≤ m) ∧ (∀ q : Rat, .num q ∈ rest → q ≤ m) := by
  intro rest
  induction rest with
  | nil =>
      intro a m h
      injection h with hP
      subst hP
      exact ⟨⟨m, rfl, le_refl m⟩, by simp⟩
  | cons v vs ih =>
      intro a m h
      rw [List.foldl_cons] at h
      have hred : ((do vmax (← some a) v) : Option Value) = vmax a v := rfl
      rw [hred] at h
      cases hv : vmax a v with
      | none =>
          rw [hv, foldl_vmax_none] at h
          cases h
      | some w =>
          rw [hv] at h
          obtain ⟨⟨qw, hqw, hmqw⟩, hrest⟩ := ih w m h
          subst hqw
          cases a with
          | str sa =>
              cases v with
              | str sv => simp [vmax] at hv
              | num qv => simp [vmax] at hv
              | nan => simp [vmax] at hv
          | nan =>
              cases v with
              | str sv => simp [vmax] at hv
              | num qv => simp [vmax] at hv
              | nan => simp [vmax] at hv
          | num qa =>
              cases v with
              | str sv => simp [vmax] at hv
              | nan => simp [vmax] at hv
              | num qv =>
                  simp only [vmax, Option.some.injEq, Value.num.injEq] at hv
                  subst hv
                  refine ⟨⟨qa, rfl, le_trans (le_max_left qa qv) hmqw⟩, ?_⟩
                  intro q hq
                  rcases List.mem_cons.mp hq with hEq | hmem
                  · injection hEq with hqv
                    subst hqv
                    exact le_trans (le_max_right qa q) hmqw
                  · exact hrest q hmem


theorem opt_some_bind {α β : Type} (a : α) (f : α → Option β) : (some a >>= f) = f a := rfl

theorem opt_none_bind {α β : Type} (f : α → Option β) : ((none : Option α) >>= f) = none := rfl

theorem seriesMin_num_le {xs : List Value} {m : Rat} (h : seriesMin xs = some (.num m)) :
    ∀ q : Rat, .num q ∈ xs → m ≤ q := by
  intro q hq
  unfold seriesMin at h
  cases hfil : xs.filter (fun v => v ≠ Value.nan) with
  | nil => rw [hfil] at h; simp at h
  | cons y rest =>
      rw [hfil] at h
      obtain ⟨⟨qy, hy, hmy⟩, hrest⟩ := foldl_vmin_num rest y m h
      have hqfil : Value.num q ∈ xs.filter (fun v => v ≠ Value.nan) :=
        List.mem_filter.mpr ⟨hq, by simp⟩
      rw [hfil] at hqfil
      rcases List.mem_cons.mp hqfil with hEq | hmem
      · rw [hy] at hEq
        injection hEq with hqy
        subst hqy
        exact hmy
      · exact hrest q hmem

theorem seriesMax_num_ge {xs : List Value} {m : Rat} (h : seriesMax xs = some (.num m)) :
    ∀ q : Rat, .num q ∈ xs → q ≤ m := by
  intro q hq
  unfold seriesMax at h
  cases hfil : xs.filter (fun v => v ≠ Value.nan) with
  | nil => rw [hfil] at h; simp at h
  | cons y rest =>
      rw [hfil] at h
      obtain ⟨⟨qy, hy, hmy⟩, hrest⟩ := foldl_vmax_num rest y m h
      have hqfil : Value.num q ∈ xs.filter (fun v => v ≠ Value.nan) :=
        List.mem_filter.mpr ⟨hq, by simp⟩
      rw [hfil] at hqfil
      rcases List.mem_cons.mp hqfil with hEq | hmem
      · rw [hy] at hEq
        injection hEq with hqy
        subst hqy
        exact hmy
      · exact hrest q hmem

theorem seriesMin_le_seriesMax {xs : List Value} {mq Mq : Rat}
    (hmin : seriesMin xs = some (.num mq)) (hmax : seriesMax xs = some (.num Mq)) :
    mq ≤ Mq := by
  unfold seriesMin at hmin
  unfold seriesMax at hmax
  cases hfil : xs.filter (fun v => v ≠ Value.nan) with
  | nil => rw [hfil] at hmin; simp at hmin
  | cons y rest =>
      rw [hfil] at hmin hmax
      obtain ⟨⟨qy, hy, hmy⟩, _⟩ := foldl_vmin_num rest y mq hmin
      obtain ⟨⟨qy2, hy2, hy2M⟩, _⟩ := foldl_vmax_num rest y Mq hmax
      rw [hy] at hy2
      injection hy2 with he
      subst he
      exact le_trans hmy hy2M

theorem forall_two_mem_right {α β : Type} {R : α → β → Prop} :
    ∀ {l1 : List α} {l2 : List β}, List.Forall₂ R l1 l2 →
      ∀ b ∈ l2, ∃ a ∈ l1, R a b := by
  intro l1 l2 h
  induction h with
  | nil => intro b hb; cases hb
  | cons hr hrest ih =>
      intro b hb
      rcases List.mem_cons.mp hb with rfl | hb2
      · exact ⟨_, List.mem_cons_self _ _, hr⟩
      · obtain ⟨a, ha, hab⟩ := ih b hb2
        exact ⟨a, List.mem_cons_of_mem _ ha, hab⟩

theorem forall_two_map_eq {α β γ : Type} {R : α → β → Prop} {g1 : α → γ} {g2 : β → γ} :
    ∀ {l1 : List α} {l2 : List β}, List.Forall₂ R l1 l2 →
      (∀ a b, R a b → g2 b = g1 a) → l2.map g2 = l1.map g1 := by
  intro l1 l2 h hg
  induction h with
  | nil => rfl
  | cons hr hrest ih => simp [hg _ _ hr, ih]

theorem normalizeColStep_skip {df : DataFrame} {c : String}
    (h : colIdx df c = none) : normalizeColStep df c = some df := by
  unfold normalizeColStep
  rw [h]

theorem normalizeColStep_inv {df dP : DataFrame} {c : String} {i : Nat}
    (hidx : colIdx df c = some i) (h : normalizeColStep df c = some dP) :
    ∃ mn mx, seriesMin (colValsAt df i) = some mn ∧ seriesMax (colValsAt df i) = some mx ∧
      (((mn ≠ Value.nan ∧ mx ≠ Value.nan ∧ mx ≠ mn) ∧
        ∃ rng newRows, vsub mx mn = some rng ∧
          mapRowsM (fun row => do
            pure (row.set i (← normCell mn rng (cellAt row i)))) df.rows = some newRows ∧
          dP = ⟨df.cols, newRows⟩) ∨
       (¬(mn ≠ Value.nan ∧ mx ≠ Value.nan ∧ mx ≠ mn) ∧
        dP = ⟨df.cols, df.rows.map (fun row => row.set i (.num 0))⟩)) := by
  simp only [normalizeColStep, hidx] at h
  cases hmn : seriesMin (colValsAt df i) with
  | none => rw [hmn, opt_none_bind] at h; cases h
  | some mn =>
      rw [hmn, opt_some_bind] at h
      cases hmx : seriesMax (colValsAt df i) with
      | none =>
          rw [hmx, opt_none_bind] at h
          cases h
      | some mx =>
          rw [hmx, opt_some_bind] at h
          refine ⟨mn, mx, rfl, rfl, ?_⟩
          by_cases hcond : mn ≠ Value.nan ∧ mx ≠ Value.nan ∧ mx ≠ mn
          · left
            rw [if_pos hcond] at h
            cases hrng : vsub mx mn with
            | none => rw [hrng, opt_none_bind] at h; cases h
            | some rng =>
                rw [hrng, opt_some_bind] at h
                cases hmap : mapRowsM (fun row => do
                    pure (row.set i (← normCell mn rng (cellAt row i)))) df.rows with
                | none => rw [hmap, opt_none_bind] at h; cases h
                | some newRows =>
                    rw [hmap, opt_some_bind] at h
                    injection h with hP
                    refine ⟨hcond, rng, newRows, ?_, ?_, hP.symm⟩
                    · first | rfl | exact hrng
                    · first | rfl | exact hmap
          · right
            rw [if_neg hcond] at h
            injection h with hP
            exact ⟨hcond, hP.symm⟩

theorem normalizeColStep_cols {df dP : DataFrame} {c : String}
    (h : normalizeColStep df c = some dP) : dP.cols = df.cols := by
  cases hidx : colIdx df c with
  | none =>
      rw [normalizeColStep_skip hidx] at h
      injection h with hP
      rw [← hP]
  | some i =>
      obtain ⟨mn, mx, _, _, hbr⟩ := normalizeColStep_inv hidx h
      rcases hbr with ⟨_, rng, newRows, _, _, rfl⟩ | ⟨_, rfl⟩ <;> rfl

theorem normalizeColStep_rect {df dP : DataFrame} {c : String}
    (h : normalizeColStep df c = some dP)
    (hrect : ∀ row ∈ df.rows, row.length = df.cols.length) :
    ∀ row ∈ dP.rows, row.length = dP.cols.length := by
  rw [normalizeColStep_cols h]
  cases hidx : colIdx df c with
  | none =>
      rw [normalizeColStep_skip hidx] at h
      injection h with hP
      rw [← hP]
      exact hrect
  | some i =>
      obtain ⟨mn, mx, _, _, hbr⟩ := normalizeColStep_inv hidx h
      rcases hbr with ⟨_, rng, newRows, _, hmap, rfl⟩ | ⟨_, rfl⟩
      · intro row hrow
        obtain ⟨r, hr, hF⟩ := forall_two_mem_right (mapRowsM_forall _ hmap) row hrow
        cases hnc : normCell mn rng (cellAt r i) with
        | none => rw [hnc] at hF; cases hF
        | some v =>
            rw [hnc] at hF
            injection hF with hP
            rw [← hP, List.length_set]
            exact hrect r hr
      · intro row hrow
        obtain ⟨r, hr, rfl⟩ := List.mem_map.mp hrow
        rw [List.length_set]
        exact hrect r hr

theorem normalizeColStep_other {df dP : DataFrame} {c : String} {i : Nat}
    (h : normalizeColStep df c = some dP) (hne : colIdx df c ≠ some i) :
    colValsAt dP i = colValsAt df i := by
  cases hidx : colIdx df c with
  | none =>
      rw [normalizeColStep_skip hidx] at h
      injection h with hP
      rw [← hP]
  | some j =>
      have hij : j ≠ i := fun hji => hne (hji ▸ hidx)
      obtain ⟨mn, mx, _, _, hbr⟩ := normalizeColStep_inv hidx h
      rcases hbr with ⟨_, rng, newRows, _, hmap, rfl⟩ | ⟨_, rfl⟩
      · show newRows.map (fun r => cellAt r i) = df.rows.map (fun r => cellAt r i)
        apply forall_two_map_eq (mapRowsM_forall _ hmap)
        intro r rP hF
        cases hnc : normCell mn rng (cellAt r j) with
        | none => rw [hnc] at hF; cases hF
        | some v =>
            rw [hnc] at hF
            injection hF with hP
            rw [← hP]
            exact cellAt_set_ne r v (fun hh => hij hh.symm)
      · show (df.rows.map fun row => row.set j (Value.num 0)).map (fun r => cellAt r i) =
          df.rows.map (fun r => cellAt r i)
        rw [List.map_map]
        apply List.map_congr_left
        intro r hr
        exact cellAt_set_ne r (Value.num 0) (fun hh => hij hh.symm)


theorem normalizeColStep_inRange {df dP : DataFrame} {c : String} {i : Nat}
    (hidx : colIdx df c = some i) (h : normalizeColStep df c = some dP) :
    InRange01 (colValsAt dP i) := by
  obtain ⟨mn, mx, hmn, hmx, hbr⟩ := normalizeColStep_inv hidx h
  rcases hbr with ⟨⟨hmnn, hmxn, hnemm⟩, rng, newRows, hrng, hmap, rfl⟩ | ⟨hcond, rfl⟩
  · cases mn with
    | nan => exact absurd rfl hmnn
    | str smn =>
        cases mx with
        | str smx => simp [vsub] at hrng
        | num qmx => simp [vsub] at hrng
        | nan => exact absurd rfl hmxn
    | num mnq =>
        cases mx with
        | str smx => simp [vsub] at hrng
        | nan => exact absurd rfl hmxn
        | num mxq =>
            have hrngv : rng = Value.num (mxq - mnq) := by
              simp only [vsub, Option.some.injEq] at hrng
              exact hrng.symm
            subst hrngv
            have hlt : mnq < mxq := by
              have hle := seriesMin_le_seriesMax hmn hmx
              have hneq : mxq ≠ mnq := fun hh => hnemm (by rw [hh])
              exact lt_of_le_of_ne hle (fun hh => hneq hh.symm)
            intro v hv hvnan
            simp only [colValsAt] at hv
            obtain ⟨rowP, hrowP, rfl⟩ := List.mem_map.mp hv
            obtain ⟨row, hrow, hF⟩ :=
              forall_two_mem_right (mapRowsM_forall _ hmap) rowP hrowP
            cases hnc : normCell (Value.num mnq) (Value.num (mxq - mnq)) (cellAt row i) with
            | none => rw [hnc] at hF; cases hF
            | some vP =>
                rw [hnc] at hF
                injection hF with hP
                subst hP
                rw [cellAt_set_eq] at hvnan ⊢
                by_cases hlen : i < row.length
                · rw [if_pos hlen] at hvnan ⊢
                  cases hcell : cellAt row i with
                  | str s => rw [hcell] at hnc; simp [normCell, vsub] at hnc
                  | nan =>
                      rw [hcell] at hnc
                      simp only [normCell, vsub, vdiv, opt_some_bind] at hnc
                      injection hnc with hP2
                      exact absurd hP2.symm hvnan
                  | num q =>
                      rw [hcell] at hnc
                      simp only [normCell, vsub, vdiv, opt_some_bind] at hnc
                      injection hnc with hP2
                      have hqmem : Value.num q ∈ colValsAt df i := by
                        rw [← hcell]
                        exact List.mem_map.mpr ⟨row, hrow, rfl⟩
                      have h1 : mnq ≤ q := seriesMin_num_le hmn q hqmem
                      have h2 : q ≤ mxq := seriesMax_num_ge hmx q hqmem
                      refine ⟨(q - mnq) / (mxq - mnq), hP2.symm, ?_, ?_⟩
                      · exact div_nonneg (sub_nonneg.mpr h1) (sub_nonneg.mpr hlt.le)
                      · rw [div_le_one (sub_pos.mpr hlt)]
                        exact sub_le_sub_right h2 mnq
                · rw [if_neg hlen] at hvnan
                  exact absurd rfl hvnan
  · intro v hv hvnan
    simp only [colValsAt, List.map_map] at hv
    obtain ⟨row, hrow, rfl⟩ := List.mem_map.mp hv
    have hvnanP : cellAt (row.set i (Value.num 0)) i ≠ Value.nan := hvnan
    show ∃ q, cellAt (row.set i (Value.num 0)) i = Value.num q ∧ 0 ≤ q ∧ q ≤ 1
    rw [cellAt_set_eq] at hvnanP ⊢
    by_cases hlen : i < row.length
    · rw [if_pos hlen]
      exact ⟨0, rfl, le_refl 0, by norm_num⟩
    · rw [if_neg hlen] at hvnanP
      exact absurd rfl hvnanP

theorem normalizeColStep_degenerate {df dP : DataFrame} {c : String} {i : Nat}
    (hidx : colIdx df c = some i) (h : normalizeColStep df c = some dP)
    (hrect : ∀ row ∈ df.rows, row.length = df.cols.length)
    (hdeg : DegenerateCol (colValsAt df i)) :
    ∀ v ∈ colValsAt dP i, v = Value.num 0 := by
  obtain ⟨mn, mx, hmn, hmx, hbr⟩ := normalizeColStep_inv hidx h
  rcases hbr with ⟨⟨hmnn, hmxn, hnemm⟩, rng, newRows, hrng, hmap, rfl⟩ | ⟨hcond, rfl⟩
  · exfalso
    rcases hdeg with hd | hd | hd
    · rw [hmn] at hd
      injection hd with hP
      exact hmnn hP
    · rw [hmx] at hd
      injection hd with hP
      exact hmxn hP
    · rw [hmn, hmx] at hd
      injection hd with hP
      exact hnemm hP.symm
  · intro v hv
    simp only [colValsAt, List.map_map] at hv
    obtain ⟨row, hrow, rfl⟩ := List.mem_map.mp hv
    show cellAt (row.set i (Value.num 0)) i = Value.num 0
    have hlen : i < row.length := by
      rw [hrect row hrow]
      exact idxOfCol_lt hidx
    rw [cellAt_set_eq, if_pos hlen]

theorem foldl_vmin_zero : ∀ (rest : List Value), (∀ v ∈ rest, v = Value.num 0) →
    rest.foldl (fun acc v => do vmin (← acc) v) (some (Value.num 0)) = some (Value.num 0) := by
  intro rest
  induction rest with
  | nil => intro _; rfl
  | cons v vs ih =>
      intro hz
      have hv : v = Value.num 0 := hz v (List.mem_cons_self v vs)
      subst hv
      rw [List.foldl_cons]
      have hred : ((do vmin (← some (Value.num 0)) (Value.num 0)) : Option Value) =
          some (Value.num 0) := by simp [vmin]
      rw [hred]
      exact ih (fun v hv => hz v (List.mem_cons_of_mem _ hv))

theorem foldl_vmax_zero : ∀ (rest : List Value), (∀ v ∈ rest, v = Value.num 0) →
    rest.foldl (fun acc v => do vmax (← acc) v) (some (Value.num 0)) = some (Value.num 0) := by
  intro rest
  induction rest with
  | nil => intro _; rfl
  | cons v vs ih =>
      intro hz
      have hv : v = Value.num 0 := hz v (List.mem_cons_self v vs)
      subst hv
      rw [List.foldl_cons]
      have hred : ((do vmax (← some (Value.num 0)) (Value.num 0)) : Option Value) =
          some (Value.num 0) := by simp [vmax]
      rw [hred]
      exact ih (fun v hv => hz v (List.mem_cons_of_mem _ hv))

theorem allZero_degenerate {xs : List Value} (hz : ∀ v ∈ xs, v = Value.num 0) :
    DegenerateCol xs := by
  unfold DegenerateCol seriesMin seriesMax
  cases hfil : xs.filter (fun v => v ≠ Value.nan) with
  | nil => left; rfl
  | cons y rest =>
      right; right
      have hy : y = Value.num 0 :=
        hz y (List.mem_of_mem_filter (hfil ▸ List.mem_cons_self y rest))
      have hrest : ∀ v ∈ rest, v = Value.num 0 := by
        intro v hv
        exact hz v (List.mem_of_mem_filter (hfil ▸ List.mem_cons_of_mem y hv))
      subst hy
      show (List.foldl (fun acc v => do vmin (← acc) v) (some (Value.num 0)) rest) =
        (List.foldl (fun acc v => do vmax (← acc) v) (some (Value.num 0)) rest)
      rw [foldl_vmin_zero rest hrest, foldl_vmax_zero rest hrest]

theorem normalize_numeric_cons (df : DataFrame) (c : String) (rest : List String) :
    normalize_numeric df (c :: rest) =
      (normalizeColStep df c) >>= (fun d1 => normalize_numeric d1 rest) := by
  unfold normalize_numeric
  rw [List.foldlM_cons]

theorem colIdx_congr {df d1 : DataFrame} (hcols : d1.cols = df.cols) (c : String) :
    colIdx d1 c = colIdx df c := by
  unfold colIdx
  rw [hcols]

theorem normalize_numeric_other {i : Nat} :
    ∀ (cols : List String) (df dP : DataFrame),
      normalize_numeric df cols = some dP →
      (∀ c ∈ cols, colIdx df c ≠ some i) →
      colValsAt dP i = colValsAt df i := by
  intro cols
  induction cols with
  | nil =>
      intro df dP h _
      injection h with hP
      rw [← hP]
  | cons c rest ih =>
      intro df dP h hni
      rw [normalize_numeric_cons] at h
      cases hstep : normalizeColStep df c with
      | none => rw [hstep] at h; cases h
      | some d1 =>
          rw [hstep, opt_some_bind] at h
          have hcols1 := normalizeColStep_cols hstep
          have h2 := ih d1 dP h (fun cP hcP => by
            rw [colIdx_congr hcols1]
            exact hni cP (List.mem_cons_of_mem _ hcP))
          rw [h2]
          exact normalizeColStep_other hstep (hni c (List.mem_cons_self _ _))

/-- C8: after `normalize_numeric`, every listed column present in a
rectangular frame holds only NaNs and numbers in `[0, 1]`; and a listed
column whose minimum equals its maximum, or whose minimum or maximum is
NaN, comes out entirely zero. -/
theorem c8_theorem (df : DataFrame) (columns : List String) (dfP : DataFrame)
    (h : normalize_numeric df columns = some dfP)
    (hrect : ∀ row ∈ df.rows, row.length = df.cols.length) :
    ∀ c ∈ columns, ∀ i, colIdx df c = some i →
      InRange01 (colValsAt dfP i) ∧
      (DegenerateCol (colValsAt df i) → ∀ v ∈ colValsAt dfP i, v = Value.num 0) := by
  induction columns generalizing df with
  | nil => intro c hc; cases hc
  | cons c0 rest ih =>
      rw [normalize_numeric_cons] at h
      cases hstep : normalizeColStep df c0 with
      | none => rw [hstep] at h; cases h
      | some d1 =>
          rw [hstep, opt_some_bind] at h
          have hcols1 : d1.cols = df.cols := normalizeColStep_cols hstep
          have hrect1 := normalizeColStep_rect hstep hrect
          intro c hc i hidx
          have hidx1 : colIdx d1 c = some i := by
            rw [colIdx_congr hcols1]
            exact hidx
          by_cases hcr : c ∈ rest
          · have Hih := ih d1 h hrect1 c hcr i hidx1
            refine ⟨Hih.1, ?_⟩
            intro hdeg
            apply Hih.2
            by_cases hc0 : colIdx df c0 = some i
            · exact allZero_degenerate (normalizeColStep_degenerate hc0 hstep hrect hdeg)
            · rw [normalizeColStep_other hstep hc0]
              exact hdeg
          · have hcc0 : c = c0 := by
              rcases List.mem_cons.mp hc with h1 | h2
              · exact h1
              · exact absurd h2 hcr
            subst hcc0
            have hfinal : colValsAt dfP i = colValsAt d1 i := by
              apply normalize_numeric_other rest d1 dfP h
              intro cP hcP hci
              have hcc : cP = c := @colIdx_inj d1 cP c _ hci hidx1
              exact hcr (hcc ▸ hcP)
            constructor
            · rw [hfinal]
              exact normalizeColStep_inRange hidx hstep
            · intro hdeg v hv
              rw [hfinal] at hv
              exact normalizeColStep_degenerate hidx hstep hrect hdeg v hv


/-- C8 (witness): the invariant at a concrete frame — column `b`
normalizes into `[0, 1]`, and the constant column `a` would come out all
zero. -/
theorem c8_witness :
    InRange01 (colValsAt ⟨["a", "b"], [[.num 0, .num 0], [.num 0, .num 1]]⟩ 1) ∧
    (DegenerateCol (colValsAt ⟨["a", "b"], [[.num 5, .num 2], [.num 5, .num 4]]⟩ 1) →
      ∀ v ∈ colValsAt ⟨["a", "b"], [[.num 0, .num 0], [.num 0, .num 1]]⟩ 1,
        v = Value.num 0) :=
  c8_theorem ⟨["a", "b"], [[.num 5, .num 2], [.num 5, .num 4]]⟩ ["a", "b"]
    ⟨["a", "b"], [[.num 0, .num 0], [.num 0, .num 1]]⟩
    (by simp [normalize_numeric, normalizeColStep, colIdx, idxOfCol, colValsAt, cellAt,
          seriesMin, seriesMax, vmin, vmax, vsub, vdiv, normCell, min_def, max_def,
          mapRowsM, List.foldlM]
        try norm_num)
    (by decide) "b" (by decide) 1 (by decide)


/-! ## C5: geo-join and point-feature rendering -/

theorem flatMap_take_count {n : Nat} :
    ∀ (rows : List (List Value)), rows.Nodup →
      ∀ (F : List Value → List (List Value)),
      (∀ r ∈ rows, ∀ out ∈ F r, out.take n = r) →
      ∀ lrow ∈ rows,
      ((rows.flatMap F).filter (fun out => decide (out.take n = lrow))).length =
        (F lrow).length := by
  intro rows
  induction rows with
  | nil => intro _ F _ lrow hl; cases hl
  | cons r rest ih =>
      intro hnd F hF lrow hl
      rw [List.flatMap_cons, List.filter_append, List.length_append]
      rcases List.mem_cons.mp hl with rfl | hlr
      · have h1 : (F lrow).filter (fun out => decide (out.take n = lrow)) = F lrow := by
          apply List.filter_eq_self.mpr
          intro out hout
          simp [hF lrow (List.mem_cons_self _ _) out hout]
        have h2 : (rest.flatMap F).filter (fun out => decide (out.take n = lrow)) = [] := by
          apply List.filter_eq_nil.mpr
          intro out hout
          obtain ⟨rP, hrP, houtP⟩ := List.mem_flatMap.mp hout
          have htake := hF rP (List.mem_cons_of_mem _ hrP) out houtP
          have hne : rP ≠ lrow := fun hh => (List.nodup_cons.mp hnd).1 (hh ▸ hrP)
          simp [htake, hne]
        rw [h1, h2]
        simp
      · have hne : r ≠ lrow := fun hh => (List.nodup_cons.mp hnd).1 (hh ▸ hlr)
        have h1 : (F r).filter (fun out => decide (out.take n = lrow)) = [] := by
          apply List.filter_eq_nil.mpr
          intro out hout
          have htake := hF r (List.mem_cons_self _ _) out hout
          simp [htake, hne]
        rw [h1]
        simp only [List.length_nil, Nat.zero_add]
        exact ih (List.nodup_cons.mp hnd).2 F
          (fun rP hrP out hout => hF rP (List.mem_cons_of_mem _ hrP) out hout) lrow hlr

theorem heatGo_cons (df zl : DataFrame) (r : List Value) (rest : List (List Value)) :
    heatGo df zl (r :: rest) = (heatGo df zl rest) >>= (fun acc => do
      let zi ← colIdx df "ZIP"
      let zli ← colIdx zl "ZIP"
      match zl.rows.filter
          (fun rr => cellAt rr zli = .str (zfill 5 (valueToString (cellAt r zi)))) with
      | [] => pure acc
      | rec0 :: _ => do
          let loni ← colIdx zl "longitude"
          let lati ← colIdx zl "latitude"
          let lon ← vToFloat (cellAt rec0 loni)
          let lat ← vToFloat (cellAt rec0 lati)
          let props := df.cols.zip r
          let props := match colIdx df "spend" with
            | some si => dictSet props "value" (cellAt r si)
            | none => props
          pure ({ lon := lon, lat := lat, props := props } :: acc)) := by
  unfold heatGo
  rw [List.foldrM_cons]

theorem mergeLeftOn_inv {left right M : DataFrame} {lk rk : String} {li ri : Nat}
    (hli : colIdx left lk = some li) (hri : colIdx right rk = some ri)
    (h : mergeLeftOn left right lk rk = .ok M) :
    M.rows = left.rows.flatMap (fun l =>
      match right.rows.filter (fun r => cellAt r ri = cellAt l li) with
      | [] => [l ++ List.replicate right.cols.length Value.nan]
      | _ => (right.rows.filter (fun r => cellAt r ri = cellAt l li)).map
          (fun r => l ++ r)) := by
  simp only [mergeLeftOn, hli, hri] at h
  injection h with hP
  rw [← hP]

/-- C5: the geo-join of `map_zip_to_dma` is a left join — in the merged
table each standardized input row appears exactly once per matching
reference row and at least once (NaN-padded on the reference columns
when the reference table has no row with its ZIP) — and
`create_heatmap_features` emits exactly one point feature per input row
whose zero-padded ZIP occurs in the reference table: a ZIP absent from
the reference table yields no feature, while the tabular aggregate (the
function input) is untouched. -/
theorem c5_theorem :
    (∀ (df mapping M std : DataFrame) (zc : String) (li ri : Nat),
      map_zip_to_dma df zc mapping = .ok M →
      standardize_zip df zc = .ok std →
      colIdx std zc = some li → colIdx mapping "ZIP" = some ri →
      std.rows.Nodup →
      (∀ row ∈ std.rows, row.length = std.cols.length) →
      ∀ lrow ∈ std.rows,
        ((M.rows.filter (fun out =>
            decide (out.take std.cols.length = lrow))).length =
          max 1 (mapping.rows.filter
            (fun r => cellAt r ri = cellAt lrow li)).length) ∧
        (mapping.rows.filter (fun r => cellAt r ri = cellAt lrow li) = [] →
          lrow ++ List.replicate mapping.cols.length Value.nan ∈ M.rows)) ∧
    (∀ (df zl : DataFrame) (fs : List Feature) (di zi : Nat),
      colIdx df "ZIP" = some di → colIdx zl "ZIP" = some zi →
      create_heatmap_features df zl = some fs →
      fs.length = (df.rows.filter (fun row =>
        !((zl.rows.filter (fun r =>
            cellAt r zi = .str (zfill 5 (valueToString (cellAt row di))))).isEmpty))).length ∧
      ∀ f ∈ fs, ∃ row ∈ df.rows, ∃ rrow ∈ zl.rows,
        cellAt rrow zi = .str (zfill 5 (valueToString (cellAt row di)))) := by
  constructor
  · intro df mapping M std zc li ri hM hstd hli hri hnd hrect lrow hl
    have hmerge : mergeLeftOn std mapping zc "ZIP" = .ok M := by
      unfold map_zip_to_dma at hM
      rw [hstd] at hM
      exact hM
    have hrows := mergeLeftOn_inv hli hri hmerge
    have htake : ∀ r ∈ std.rows,
        ∀ out ∈ ((fun l =>
          match mapping.rows.filter (fun m => cellAt m ri = cellAt l li) with
          | [] => [l ++ List.replicate mapping.cols.length Value.nan]
          | _ => (mapping.rows.filter (fun m => cellAt m ri = cellAt l li)).map
              (fun m => l ++ m)) r),
          out.take std.cols.length = r := by
      intro r hr out hout
      have hlen : r.length = std.cols.length := hrect r hr
      have hout2 : out ∈ (match mapping.rows.filter (fun m => cellAt m ri = cellAt r li) with
          | [] => [r ++ List.replicate mapping.cols.length Value.nan]
          | _ => (mapping.rows.filter (fun m => cellAt m ri = cellAt r li)).map
              (fun m => r ++ m)) := hout
      cases hms : mapping.rows.filter (fun m => cellAt m ri = cellAt r li) with
      | nil =>
          rw [hms] at hout2
          have : out = r ++ List.replicate mapping.cols.length Value.nan :=
            List.mem_singleton.mp hout2
          rw [this]
          exact List.take_left' hlen
      | cons m0 ms0 =>
          rw [hms] at hout2
          obtain ⟨mr, _, rfl⟩ := List.mem_map.mp hout2
          exact List.take_left' hlen
    constructor
    · rw [hrows, flatMap_take_count std.rows hnd _ htake lrow hl]
      cases hms : mapping.rows.filter (fun m => cellAt m ri = cellAt lrow li) with
      | nil => simp
      | cons m0 ms0 => simp [Nat.max_eq_right (Nat.succ_le_succ (Nat.zero_le _))]
    · intro hms
      rw [hrows]
      apply List.mem_flatMap.mpr
      refine ⟨lrow, hl, ?_⟩
      show _ ∈ (match mapping.rows.filter (fun m => cellAt m ri = cellAt lrow li) with
        | [] => [lrow ++ List.replicate mapping.cols.length Value.nan]
        | _ => (mapping.rows.filter (fun m => cellAt m ri = cellAt lrow li)).map
            (fun m => lrow ++ m))
      rw [hms]
      exact List.mem_singleton.mpr rfl
  · intro df zl fs di zi hdi hzi hcreate
    have key : ∀ (rows : List (List Value)) (fs : List Feature),
        heatGo df zl rows = some fs →
        fs.length = (rows.filter (fun row =>
          !((zl.rows.filter (fun r =>
              cellAt r zi = .str (zfill 5 (valueToString (cellAt row di))))).isEmpty))).length ∧
        ∀ f ∈ fs, ∃ row ∈ rows, ∃ rrow ∈ zl.rows,
          cellAt rrow zi = .str (zfill 5 (valueToString (cellAt row di))) := by
      intro rows
      induction rows with
      | nil =>
          intro fs h
          injection h with hP
          subst hP
          exact ⟨rfl, by intro f hf; cases hf⟩
      | cons r rest ih =>
          intro fs h
          rw [heatGo_cons, hdi, hzi] at h
          cases hrest : heatGo df zl rest with
          | none => rw [hrest, opt_none_bind] at h; cases h
          | some fsP =>
              rw [hrest] at h
              rw [opt_some_bind] at h
              rw [opt_some_bind] at h
              rw [opt_some_bind] at h
              rw [List.filter_cons]
              cases hflt : zl.rows.filter (fun rr =>
                  cellAt rr zi = .str (zfill 5 (valueToString (cellAt r di)))) with
              | nil =>
                  rw [hflt] at h
                  have hfs : fsP = fs := by injection h
                  subst hfs
                  simp only [List.isEmpty_nil, Bool.not_true, Bool.false_eq_true, if_false]
                  obtain ⟨hlen, hmem⟩ := ih fsP hrest
                  refine ⟨hlen, ?_⟩
                  intro f hf
                  obtain ⟨row, hrow, rrow, hrrow, hp⟩ := hmem f hf
                  exact ⟨row, List.mem_cons_of_mem _ hrow, rrow, hrrow, hp⟩
              | cons rec0 recs =>
                  rw [hflt] at h
                  simp only [] at h
                  cases hloni : colIdx zl "longitude" with
                  | none => rw [hloni, opt_none_bind] at h; cases h
                  | some loni =>
                  rw [hloni, opt_some_bind] at h
                  cases hlati : colIdx zl "latitude" with
                  | none => rw [hlati, opt_none_bind] at h; cases h
                  | some lati =>
                  rw [hlati, opt_some_bind] at h
                  cases hlon : vToFloat (cellAt rec0 loni) with
                  | none => rw [hlon, opt_none_bind] at h; cases h
                  | some lon =>
                  rw [hlon, opt_some_bind] at h
                  cases hlat : vToFloat (cellAt rec0 lati) with
                  | none => rw [hlat, opt_none_bind] at h; cases h
                  | some lat =>
                  rw [hlat, opt_some_bind] at h
                  have hfs : ((⟨lon, lat,
                      match colIdx df "spend" with
                      | some si => dictSet (df.cols.zip r) "value" (cellAt r si)
                      | none => df.cols.zip r⟩ : Feature) :: fsP) = fs := by
                    injection h
                  simp only [List.isEmpty_cons, Bool.not_false, if_true]
                  obtain ⟨hlen, hmem⟩ := ih fsP hrest
                  constructor
                  · rw [← hfs, List.length_cons, List.length_cons, hlen]
                  · intro f hf
                    rw [← hfs] at hf
                    rcases List.mem_cons.mp hf with rfl | hf2
                    · refine ⟨r, List.mem_cons_self _ _, rec0, ?_, ?_⟩
                      · have : rec0 ∈ zl.rows.filter (fun rr =>
                            cellAt rr zi = .str (zfill 5 (valueToString (cellAt r di)))) := by
                          rw [hflt]
                          exact List.mem_cons_self _ _
                        exact List.mem_of_mem_filter this
                      · have : rec0 ∈ zl.rows.filter (fun rr =>
                            cellAt rr zi = .str (zfill 5 (valueToString (cellAt r di)))) := by
                          rw [hflt]
                          exact List.mem_cons_self _ _
                        have hp := List.of_mem_filter this
                        simpa using hp
                    · obtain ⟨row, hrow, rrow, hrrow, hp⟩ := hmem f hf2
                      exact ⟨row, List.mem_cons_of_mem _ hrow, rrow, hrrow, hp⟩
    exact key df.rows fs hcreate

/-- Witness for `c5_theorem` on the concrete fixtures: the merged frame
keeps exactly one copy of the standardized row, and the heat-feature
list has one feature per aggregated row whose padded ZIP appears in the
reference table. -/
theorem c5_witness :
    ((c5M.rows.filter (fun out =>
        decide (out.take c5std.cols.length = c5lrow))).length =
      max 1 (c5map.rows.filter
        (fun r => cellAt r 0 = cellAt c5lrow 0)).length) ∧
    c5fs.length = (c5hdf.rows.filter (fun row =>
      !((c5zl.rows.filter (fun r =>
          cellAt r 0 = .str (zfill 5 (valueToString (cellAt row 0))))).isEmpty))).length :=
  ⟨(c5_theorem.1 c5df c5map c5M c5std "zip" 0 0 (by decide) (by decide) (by decide)
      (by decide) (by decide) (by decide) c5lrow (by decide)).1,
   (c5_theorem.2 c5hdf c5zl c5fs 0 0 (by decide) (by decide) (by decide)).1⟩

/-! ## Index and record lemmas for the merge-order claim -/

theorem idxOfCol_mem {c : String} {cols : List String} (h : c ∈ cols) :
    ∃ i, idxOfCol c cols = some i := by
  induction cols with
  | nil => cases h
  | cons d rest ih =>
      by_cases hd : d = c
      · exact ⟨0, by rw [idxOfCol, if_pos hd]⟩
      · have hc : c ∈ rest := by
          cases List.mem_cons.mp h with
          | inl he => exact absurd he.symm hd
          | inr hr => exact hr
        obtain ⟨i, hi⟩ := ih hc
        exact ⟨i + 1, by rw [idxOfCol, if_neg hd, hi]; rfl⟩

theorem idxOfCol_append_left {c : String} {cols1 cols2 : List String} {i : Nat}
    (h : idxOfCol c cols1 = some i) : idxOfCol c (cols1 ++ cols2) = some i := by
  induction cols1 generalizing i with
  | nil => cases h
  | cons d rest ih =>
      rw [idxOfCol] at h
      rw [List.cons_append, idxOfCol]
      by_cases hd : d = c
      · rw [if_pos hd] at h ⊢; exact h
      · rw [if_neg hd] at h ⊢
        cases hr : idxOfCol c rest with
        | none => rw [hr] at h; cases h
        | some j =>
            rw [hr] at h
            injection h with h
            subst h
            rw [ih hr]; rfl

theorem idxOfCol_append_right {c : String} {cols2 : List String} :
    ∀ {cols1 : List String}, c ∉ cols1 →
      idxOfCol c (cols1 ++ cols2) = (idxOfCol c cols2).map (· + cols1.length) := by
  intro cols1
  induction cols1 with
  | nil =>
      intro _
      cases h2 : idxOfCol c cols2 <;> simp [h2]
  | cons d rest ih =>
      intro h
      have hd : ¬ d = c := fun he => h (by rw [he]; exact List.mem_cons_self _ _)
      have hrest : c ∉ rest := fun hc => h (List.mem_cons_of_mem _ hc)
      rw [List.cons_append, idxOfCol, if_neg hd, ih hrest]
      cases h2 : idxOfCol c cols2 with
      | none => rfl
      | some j => simp [List.length_cons]; omega

theorem idxOfCol_nodup_get {cols : List String} (hnd : cols.Nodup) :
    ∀ {i : Nat} {c : String}, cols.get? i = some c → idxOfCol c cols = some i := by
  induction cols with
  | nil => intro i c h; cases i <;> cases h
  | cons d rest ih =>
      intro i c h
      cases i with
      | zero =>
          injection h with h
          subst h
          rw [idxOfCol, if_pos rfl]
      | succ j =>
          have hc : c ∈ rest := List.get?_mem h
          have hd : ¬ d = c := fun he => (List.nodup_cons.mp hnd).1 (he ▸ hc)
          rw [idxOfCol, if_neg hd, ih (List.nodup_cons.mp hnd).2 h]
          rfl

theorem cellAt_append_lt {l w : List Value} {i : Nat} (h : i < l.length) :
    cellAt (l ++ w) i = cellAt l i :=
  List.getD_append l w Value.nan i h

theorem cellAt_append_ge {l w : List Value} {i : Nat} (h : l.length ≤ i) :
    cellAt (l ++ w) i = cellAt w (i - l.length) :=
  List.getD_append_right l w Value.nan i h

theorem cellAt_map_get {cols : List String} {f : String → Value} {i : Nat} {c : String}
    (h : cols.get? i = some c) : cellAt (cols.map f) i = f c := by
  have hi : i < cols.length := by
    by_contra hlt
    rw [List.get?_eq_none.mpr (le_of_not_lt hlt)] at h
    cases h
  have hgm : i < (cols.map f).length := by rw [List.length_map]; exact hi
  unfold cellAt
  rw [List.getD_eq_getElem _ _ hgm, List.getElem_map]
  have hc : cols[i] = c := by
    have := List.get?_eq_getElem? cols i
    rw [h, List.getElem?_eq_getElem hi] at this
    injection this with this
    exact this.symm
  rw [hc]

theorem cellAt_replicate {n i : Nat} : cellAt (List.replicate n Value.nan) i = Value.nan := by
  unfold cellAt
  induction n generalizing i with
  | zero => cases i <;> rfl
  | succ m ih =>
      rw [List.replicate_succ]
      cases i with
      | zero => rfl
      | succ j => exact ih

theorem keyTuple_filterMap {df : DataFrame} {cs : List String}
    (h : ∀ c ∈ cs, c ∈ df.cols) (row : List Value) :
    keyTuple (cs.filterMap (colIdx df)) row = keyOfRow cs df row := by
  induction cs with
  | nil => rfl
  | cons c rest ih =>
      obtain ⟨j, hj⟩ := idxOfCol_mem (h c (List.mem_cons_self _ _))
      have hj2 : colIdx df c = some j := hj
      rw [List.filterMap_cons, hj2]
      show cellAt row j :: keyTuple (rest.filterMap (colIdx df)) row = _
      rw [ih (fun cP hcP => h cP (List.mem_cons_of_mem _ hcP))]
      show _ = (colIdx df c).elim Value.nan (cellAt row) :: _
      rw [hj2]
      rfl

theorem mem_valCols {keys : List String} {df : DataFrame} {c : String} :
    c ∈ valCols keys df ↔ c ∈ df.cols ∧ c ∉ keys := by
  unfold valCols
  rw [List.mem_filter]
  simp

theorem zip_map_self {α β : Type} (f : α → β) (l : List α) :
    l.zip (l.map f) = l.map (fun a => (a, f a)) := by
  induction l with
  | nil => rfl
  | cons a rest ih => rw [List.map_cons, List.zip_cons_cons, ih, List.map_cons]

theorem zip_record {df : DataFrame} {row : List Value} (hnd : df.cols.Nodup)
    (hlen : row.length = df.cols.length) :
    df.cols.zip row =
      df.cols.map (fun c => (c, (colIdx df c).elim Value.nan (cellAt row))) := by
  apply List.ext_getElem
  · rw [List.length_zip, List.length_map, hlen, Nat.min_self]
  · intro i h1 h2
    have hic : i < df.cols.length := by rw [List.length_map] at h2; exact h2
    have hir : i < row.length := by rw [hlen]; exact hic
    rw [List.getElem_zip, List.getElem_map]
    have hci : colIdx df (df.cols[i]) = some i := by
      apply idxOfCol_nodup_get hnd
      rw [List.get?_eq_getElem?, List.getElem?_eq_getElem hic]
    rw [hci]
    show _ = (df.cols[i], cellAt row i)
    unfold cellAt
    rw [List.getD_eq_getElem _ _ hir]

theorem recordOf_append {cols1 cols2 : List String} {l w : List Value}
    (h : cols1.length = l.length) :
    recordOf (cols1 ++ cols2) (l ++ w) = recordOf cols1 l ∪ recordOf cols2 w := by
  unfold recordOf
  rw [List.zip_append h, List.toFinset_append]

theorem keyRec_map {keys : List String} {f : String → Value} :
    keyRec keys (keys.map f) = (keys.map (fun c => (c, f c))).toFinset := by
  unfold keyRec
  rw [zip_map_self]

theorem recordOf_key_val {keys : List String} {df : DataFrame} {row : List Value}
    (hnd : df.cols.Nodup) (hlen : row.length = df.cols.length)
    (hk : ∀ k ∈ keys, k ∈ df.cols) :
    recordOf df.cols row = keyRec keys (keyOfRow keys df row) ∪ valRec keys df row := by
  unfold recordOf
  rw [zip_record hnd hlen]
  unfold keyOfRow
  rw [keyRec_map]
  unfold valRec
  ext p
  simp only [List.mem_toFinset, List.mem_map, Finset.mem_union]
  constructor
  · rintro ⟨c, hc, rfl⟩
    by_cases hck : c ∈ keys
    · exact Or.inl ⟨c, hck, rfl⟩
    · exact Or.inr ⟨c, mem_valCols.mpr ⟨hc, hck⟩, rfl⟩
  · rintro (⟨c, hck, rfl⟩ | ⟨c, hcv, rfl⟩)
    · exact ⟨c, hk c hck, rfl⟩
    · exact ⟨c, (mem_valCols.mp hcv).1, rfl⟩

theorem lookup_append_left {X : DataFrame} {V : List String} {c : String} {l w : List Value}
    (hc : c ∈ X.cols) (hlen : l.length = X.cols.length) (rows : List (List Value)) :
    (colIdx (⟨X.cols ++ V, rows⟩ : DataFrame) c).elim Value.nan (cellAt (l ++ w)) =
      (colIdx X c).elim Value.nan (cellAt l) := by
  obtain ⟨i, hi⟩ := idxOfCol_mem hc
  have hi2 : colIdx (⟨X.cols ++ V, rows⟩ : DataFrame) c = some i := idxOfCol_append_left hi
  have hi3 : colIdx X c = some i := hi
  rw [hi2, hi3]
  show cellAt (l ++ w) i = cellAt l i
  exact cellAt_append_lt (hlen ▸ idxOfCol_lt hi)

theorem lookup_append_right {X : DataFrame} {V : List String} {c : String} {l w : List Value}
    (hc : c ∉ X.cols) (hlen : l.length = X.cols.length) (rows : List (List Value)) :
    (colIdx (⟨X.cols ++ V, rows⟩ : DataFrame) c).elim Value.nan (cellAt (l ++ w)) =
      (idxOfCol c V).elim Value.nan (cellAt w) := by
  have happ : idxOfCol c (X.cols ++ V) = (idxOfCol c V).map (· + X.cols.length) :=
    idxOfCol_append_right hc
  cases hV : idxOfCol c V with
  | none =>
      have : colIdx (⟨X.cols ++ V, rows⟩ : DataFrame) c = none := by
        show idxOfCol c (X.cols ++ V) = none
        rw [happ, hV]
        rfl
      rw [this]
      rfl
  | some j =>
      have : colIdx (⟨X.cols ++ V, rows⟩ : DataFrame) c = some (j + X.cols.length) := by
        show idxOfCol c (X.cols ++ V) = some (j + X.cols.length)
        rw [happ, hV]
        rfl
      rw [this]
      show cellAt (l ++ w) (j + X.cols.length) = cellAt w j
      rw [cellAt_append_ge (by omega)]
      congr 1
      omega

theorem keyOfRow_mk_append {keys : List String} {X : DataFrame} {V : List String}
    {l w : List Value} (hk : ∀ c ∈ keys, c ∈ X.cols) (hlen : l.length = X.cols.length)
    (rows : List (List Value)) :
    keyOfRow keys (⟨X.cols ++ V, rows⟩ : DataFrame) (l ++ w) = keyOfRow keys X l := by
  unfold keyOfRow
  apply List.map_congr_left
  intro c hc
  exact lookup_append_left (hk c hc) hlen rows

theorem valCols_mk_append {keys : List String} {X Y : DataFrame}
    (rows : List (List Value)) :
    valCols keys (⟨X.cols ++ valCols keys Y, rows⟩ : DataFrame) =
      valCols keys X ++ valCols keys Y := by
  show (X.cols ++ valCols keys Y).filter _ = _
  rw [List.filter_append]
  congr 1
  apply List.filter_eq_self.mpr
  intro c hc
  have := (mem_valCols.mp hc).2
  simpa using this

theorem valRec_mk_append {keys : List String} {X Y : DataFrame} {l w : List Value}
    (hdisj : ∀ c ∈ valCols keys X, c ∉ valCols keys Y)
    (hlen : l.length = X.cols.length) (rows : List (List Value)) :
    valRec keys (⟨X.cols ++ valCols keys Y, rows⟩ : DataFrame) (l ++ w) =
      valRec keys X l ∪
      ((valCols keys Y).map
        (fun c => (c, (idxOfCol c (valCols keys Y)).elim Value.nan (cellAt w)))).toFinset := by
  unfold valRec
  rw [valCols_mk_append rows, List.map_append, List.toFinset_append]
  congr 1
  · apply congrArg List.toFinset
    apply List.map_congr_left
    intro c hc
    exact congrArg (fun v => (c, v))
      (lookup_append_left (mem_valCols.mp hc).1 hlen rows)
  · apply congrArg List.toFinset
    apply List.map_congr_left
    intro c hc
    have hcX : c ∉ X.cols := by
      intro hmem
      exact hdisj c (mem_valCols.mpr ⟨hmem, (mem_valCols.mp hc).2⟩) hc
    exact congrArg (fun v => (c, v)) (lookup_append_right hcX hlen rows)

theorem valW_keyOfRow {keys : List String} {Y : DataFrame} {r : List Value}
    (hndY : Y.cols.Nodup) :
    ((valCols keys Y).map (fun c =>
        (c, (idxOfCol c (valCols keys Y)).elim Value.nan
          (cellAt (keyOfRow (valCols keys Y) Y r))))).toFinset =
      valRec keys Y r := by
  unfold valRec
  apply congrArg List.toFinset
  apply List.map_congr_left
  intro c hc
  obtain ⟨j, hj⟩ := idxOfCol_mem hc
  rw [hj]
  show (c, cellAt (keyOfRow (valCols keys Y) Y r) j) = _
  unfold keyOfRow
  rw [cellAt_map_get (idxOfCol_get hj)]

theorem valW_replicate {keys : List String} {Y : DataFrame} {n : Nat} :
    ((valCols keys Y).map (fun c =>
        (c, (idxOfCol c (valCols keys Y)).elim Value.nan
          (cellAt (List.replicate n Value.nan))))).toFinset =
      nanRec keys Y := by
  unfold nanRec
  apply congrArg List.toFinset
  apply List.map_congr_left
  intro c _
  cases hj : idxOfCol c (valCols keys Y) with
  | none => rfl
  | some j =>
      show (c, cellAt (List.replicate n Value.nan) j) = _
      rw [cellAt_replicate]

theorem keyOfRow_map_row {cs : List String} {X : DataFrame} {f : String → Value}
    (h : ∀ c ∈ cs, c ∈ X.cols) :
    keyOfRow cs X (X.cols.map f) = cs.map f := by
  unfold keyOfRow
  apply List.map_congr_left
  intro c hc
  obtain ⟨i, hi⟩ := idxOfCol_mem (h c hc)
  have hi2 : colIdx X c = some i := hi
  rw [hi2]
  exact cellAt_map_get (idxOfCol_get hi)

theorem keyOfRow_nanXRow {keys : List String} {X Y : DataFrame} {r : List Value}
    (hkX : ∀ c ∈ keys, c ∈ X.cols) :
    keyOfRow keys X (X.cols.map (fun c =>
      if c ∈ keys then (colIdx Y c).elim Value.nan (cellAt r) else Value.nan)) =
    keyOfRow keys Y r := by
  rw [keyOfRow_map_row hkX]
  unfold keyOfRow
  apply List.map_congr_left
  intro c hc
  rw [if_pos hc]

theorem valRec_nanXRow {keys : List String} {X Y : DataFrame} {r : List Value} :
    valRec keys X (X.cols.map (fun c =>
      if c ∈ keys then (colIdx Y c).elim Value.nan (cellAt r) else Value.nan)) =
    nanRec keys X := by
  unfold valRec nanRec
  apply congrArg List.toFinset
  apply List.map_congr_left
  intro c hc
  obtain ⟨i, hi⟩ := idxOfCol_mem (mem_valCols.mp hc).1
  have hi2 : colIdx X c = some i := hi
  rw [hi2]
  show (c, cellAt (X.cols.map _) i) = _
  rw [cellAt_map_get (idxOfCol_get hi), if_neg (mem_valCols.mp hc).2]

theorem mem_contrib {keys : List String} {df : DataFrame} {k : List Value}
    {s : Finset (String × Value)} :
    s ∈ contrib keys df k ↔
      ((∃ row ∈ df.rows, keyOfRow keys df row = k ∧ s = valRec keys df row) ∨
       (¬ hasKey keys df k ∧ s = nanRec keys df)) := Iff.rfl

theorem contrib_row {keys : List String} {df : DataFrame} {k : List Value} {row : List Value}
    (hrow : row ∈ df.rows) (hkey : keyOfRow keys df row = k) :
    valRec keys df row ∈ contrib keys df k :=
  Or.inl ⟨row, hrow, hkey, rfl⟩

theorem contrib_nan {keys : List String} {df : DataFrame} {k : List Value}
    (h : ¬ hasKey keys df k) : nanRec keys df ∈ contrib keys df k :=
  Or.inr ⟨h, rfl⟩

theorem contrib_nonempty (keys : List String) (df : DataFrame) (k : List Value) :
    ∃ s, s ∈ contrib keys df k := by
  by_cases h : hasKey keys df k
  · obtain ⟨row, hrow, hkey⟩ := h
    exact ⟨valRec keys df row, contrib_row hrow hkey⟩
  · exact ⟨nanRec keys df, contrib_nan h⟩

theorem mergeOuter_ok {keys : List String} {X Y : DataFrame}
    (hndX : X.cols.Nodup) (hndY : Y.cols.Nodup)
    (hX : ∀ k ∈ keys, k ∈ X.cols) (hY : ∀ k ∈ keys, k ∈ Y.cols)
    (hdisj : ∀ c ∈ valCols keys X, c ∉ valCols keys Y)
    (hkind : ∀ k ∈ keys, kindNumeric X k = kindNumeric Y k) :
    mergeOuter keys X Y = .ok (mergeC keys X Y) := by
  have hanyX : ¬ ((keys.any (fun k => (colIdx X k).isNone)) = true) := by
    rw [Bool.not_eq_true, List.any_eq_false]
    intro k hk
    obtain ⟨i, hi⟩ := idxOfCol_mem (hX k hk)
    have hi2 : colIdx X k = some i := hi
    simp [hi2]
  have hanyY : ¬ ((keys.any (fun k => (colIdx Y k).isNone)) = true) := by
    rw [Bool.not_eq_true, List.any_eq_false]
    intro k hk
    obtain ⟨i, hi⟩ := idxOfCol_mem (hY k hk)
    have hi2 : colIdx Y k = some i := hi
    simp [hi2]
  have h1 : ∀ row, keyTuple (keys.filterMap (colIdx X)) row = keyOfRow keys X row :=
    keyTuple_filterMap hX
  have h2 : ∀ row, keyTuple (keys.filterMap (colIdx Y)) row = keyOfRow keys Y row :=
    keyTuple_filterMap hY
  have h3 : ∀ row, keyTuple ((Y.cols.filter (fun c => c ∉ keys)).filterMap (colIdx Y)) row =
      keyOfRow (valCols keys Y) Y row := by
    intro row
    exact keyTuple_filterMap (fun c hc => (List.mem_filter.mp hc).1) row
  have h4 : ∀ c ∈ X.cols, ¬(c ∉ keys ∧ c ∈ Y.cols) := by
    intro c hc hcontra
    exact hdisj c (mem_valCols.mpr ⟨hc, hcontra.1⟩) (mem_valCols.mpr ⟨hcontra.2, hcontra.1⟩)
  have hcolsX : X.cols.map (fun c => if c ∉ keys ∧ c ∈ Y.cols then c ++ "_x" else c)
      = X.cols := by
    have hpt : ∀ c ∈ X.cols,
        (if c ∉ keys ∧ c ∈ Y.cols then c ++ "_x" else c) = id c :=
      fun c hc => by rw [if_neg (h4 c hc)]; rfl
    rw [List.map_congr_left hpt, List.map_id]
  have hcolsY : (Y.cols.filter (fun c => c ∉ keys)).map
      (fun c => if c ∈ X.cols then c ++ "_y" else c) = Y.cols.filter (fun c => c ∉ keys) := by
    have hpt : ∀ c ∈ Y.cols.filter (fun c => c ∉ keys),
        (if c ∈ X.cols then c ++ "_y" else c) = id c := by
      intro c hc
      have hcv : c ∈ valCols keys Y := hc
      rw [if_neg (fun hmem =>
        hdisj c (mem_valCols.mpr ⟨hmem, (mem_valCols.mp hcv).2⟩) hcv)]
      rfl
    rw [List.map_congr_left hpt, List.map_id]
  have h5 : ∀ r : List Value, X.cols.map (fun c =>
      match colIdx Y c with
      | some j => if c ∈ keys then cellAt r j else Value.nan
      | none => Value.nan) =
    X.cols.map (fun c =>
      if c ∈ keys then (colIdx Y c).elim Value.nan (cellAt r) else Value.nan) := by
    intro r
    apply List.map_congr_left
    intro c hc
    by_cases hck : c ∈ keys
    · obtain ⟨j, hj⟩ := idxOfCol_mem (hY c hck)
      have hj2 : colIdx Y c = some j := hj
      simp [hj2, hck]
    · cases hj : colIdx Y c with
      | none => simp [hj, hck]
      | some j => simp [hj, hck]
  have hanyKind : ¬ ((keys.any (fun k => kindNumeric X k ≠ kindNumeric Y k)) = true) := by
    rw [Bool.not_eq_true, List.any_eq_false]
    intro k hk
    simp [hkind k hk]
  have hnodup : (X.cols ++ Y.cols.filter (fun c => c ∉ keys)).Nodup := by
    rw [List.nodup_append]
    refine ⟨hndX, hndY.filter _, ?_⟩
    intro c hcX hcV
    have hcv : c ∈ valCols keys Y := hcV
    exact hdisj c (mem_valCols.mpr ⟨hcX, (mem_valCols.mp hcv).2⟩) hcv
  unfold mergeOuter
  rw [if_neg hanyX, if_neg hanyY, if_neg hanyKind]
  unfold mergeC mergeRowsC
  simp only [h1, h2, h3, h5, hcolsX, hcolsY]
  rw [if_pos hnodup]
  rfl

theorem mem_mergeRowsC {keys : List String} {X Y : DataFrame} {row : List Value} :
    row ∈ mergeRowsC keys X Y ↔
      (∃ l ∈ X.rows, ∃ r ∈ Y.rows, keyOfRow keys Y r = keyOfRow keys X l ∧
          row = l ++ keyOfRow (valCols keys Y) Y r) ∨
      (∃ l ∈ X.rows, ¬ hasKey keys Y (keyOfRow keys X l) ∧
          row = l ++ List.replicate (valCols keys Y).length Value.nan) ∨
      (∃ r ∈ Y.rows, ¬ hasKey keys X (keyOfRow keys Y r) ∧
          row = X.cols.map (fun c =>
              if c ∈ keys then (colIdx Y c).elim Value.nan (cellAt r) else Value.nan) ++
            keyOfRow (valCols keys Y) Y r) := by
  unfold mergeRowsC
  rw [List.mem_append, List.mem_flatMap]
  constructor
  · rintro (⟨l, hl, hrow⟩ | hrow)
    · cases hflt : Y.rows.filter (fun r => keyOfRow keys Y r = keyOfRow keys X l) with
      | nil =>
          rw [hflt] at hrow
          simp only [List.mem_singleton] at hrow
          refine Or.inr (Or.inl ⟨l, hl, ?_, hrow⟩)
          rintro ⟨r, hr, hkr⟩
          have hmem : r ∈ Y.rows.filter
              (fun r => keyOfRow keys Y r = keyOfRow keys X l) :=
            List.mem_filter.mpr ⟨hr, by simp [hkr]⟩
          rw [hflt] at hmem
          cases hmem
      | cons r0 rs =>
          rw [hflt] at hrow
          simp only [List.mem_map] at hrow
          obtain ⟨r, hrmem, hfr⟩ := hrow
          have hrfilter : r ∈ Y.rows.filter
              (fun r => keyOfRow keys Y r = keyOfRow keys X l) := by
            rw [hflt]; exact hrmem
          have hrY := (List.mem_filter.mp hrfilter).1
          have hkr : keyOfRow keys Y r = keyOfRow keys X l := by
            have := (List.mem_filter.mp hrfilter).2
            simpa using this
          exact Or.inl ⟨l, hl, r, hrY, hkr, hfr.symm⟩
    · simp only [List.mem_map] at hrow
      obtain ⟨r, hrmem, hfr⟩ := hrow
      have hrY := (List.mem_filter.mp hrmem).1
      have hall := (List.mem_filter.mp hrmem).2
      refine Or.inr (Or.inr ⟨r, hrY, ?_, hfr.symm⟩)
      rintro ⟨l, hl, hkl⟩
      rw [List.all_eq_true] at hall
      have := hall l hl
      simp at this
      exact this hkl
  · rintro (⟨l, hl, r, hrY, hkeq, rfl⟩ | ⟨l, hl, hnk, rfl⟩ | ⟨r, hrY, hnk, rfl⟩)
    · refine Or.inl ⟨l, hl, ?_⟩
      cases hflt : Y.rows.filter (fun r => keyOfRow keys Y r = keyOfRow keys X l) with
      | nil =>
          exfalso
          have hmem : r ∈ Y.rows.filter
              (fun r => keyOfRow keys Y r = keyOfRow keys X l) :=
            List.mem_filter.mpr ⟨hrY, by simp [hkeq]⟩
          rw [hflt] at hmem
          cases hmem
      | cons r0 rs =>
          show _ ∈ (r0 :: rs).map (fun r => l ++ keyOfRow (valCols keys Y) Y r)
          apply List.mem_map.mpr
          refine ⟨r, ?_, rfl⟩
          have hmem : r ∈ Y.rows.filter
              (fun r => keyOfRow keys Y r = keyOfRow keys X l) :=
            List.mem_filter.mpr ⟨hrY, by simp [hkeq]⟩
          rw [hflt] at hmem
          exact hmem
    · refine Or.inl ⟨l, hl, ?_⟩
      cases hflt : Y.rows.filter (fun r => keyOfRow keys Y r = keyOfRow keys X l) with
      | nil =>
          show _ ∈ [l ++ List.replicate (valCols keys Y).length Value.nan]
          exact List.mem_singleton.mpr rfl
      | cons r0 rs =>
          exfalso
          have hr0 : r0 ∈ Y.rows.filter
              (fun r => keyOfRow keys Y r = keyOfRow keys X l) := by
            rw [hflt]; exact List.mem_cons_self _ _
          have hr0Y := (List.mem_filter.mp hr0).1
          have hk0 : keyOfRow keys Y r0 = keyOfRow keys X l := by
            have := (List.mem_filter.mp hr0).2
            simpa using this
          exact hnk ⟨r0, hr0Y, hk0⟩
    · refine Or.inr ?_
      apply List.mem_map.mpr
      refine ⟨r, ?_, rfl⟩
      apply List.mem_filter.mpr
      refine ⟨hrY, ?_⟩
      rw [List.all_eq_true]
      intro l hl
      exact decide_eq_true (fun heq => hnk ⟨l, hl, heq⟩)

theorem merged_record {keys : List String} {X Y : DataFrame} (hr : MergeReady keys X Y) :
    ∀ row ∈ (mergeC keys X Y).rows,
      ∃ k x y, x ∈ contrib keys X k ∧ y ∈ contrib keys Y k ∧
        (hasKey keys X k ∨ hasKey keys Y k) ∧
        keyOfRow keys (mergeC keys X Y) row = k ∧
        valRec keys (mergeC keys X Y) row = x ∪ y ∧
        row.length = (mergeC keys X Y).cols.length := by
  obtain ⟨hWX, hWY, hkX, hkY, hdisj, hkind⟩ := hr
  intro row hrow
  have hrow2 : row ∈ mergeRowsC keys X Y := hrow
  rw [mem_mergeRowsC] at hrow2
  rcases hrow2 with ⟨l, hl, r, hrY, hkeq, rfl⟩ | ⟨l, hl, hnk, rfl⟩ | ⟨r, hrY, hnk, rfl⟩
  · have hlen : l.length = X.cols.length := hWX.2 l hl
    refine ⟨keyOfRow keys X l, valRec keys X l, valRec keys Y r,
      contrib_row hl rfl, contrib_row hrY hkeq, Or.inl ⟨l, hl, rfl⟩, ?_, ?_, ?_⟩
    · exact keyOfRow_mk_append hkX hlen _
    · show valRec keys (⟨X.cols ++ valCols keys Y, _⟩ : DataFrame) _ = _
      rw [valRec_mk_append hdisj hlen, valW_keyOfRow hWY.1]
    · show (l ++ keyOfRow (valCols keys Y) Y r).length = (X.cols ++ valCols keys Y).length
      rw [List.length_append, List.length_append, hlen]
      congr 1
      show ((valCols keys Y).map _).length = _
      rw [List.length_map]
  · have hlen : l.length = X.cols.length := hWX.2 l hl
    refine ⟨keyOfRow keys X l, valRec keys X l, nanRec keys Y,
      contrib_row hl rfl, contrib_nan hnk, Or.inl ⟨l, hl, rfl⟩, ?_, ?_, ?_⟩
    · exact keyOfRow_mk_append hkX hlen _
    · show valRec keys (⟨X.cols ++ valCols keys Y, _⟩ : DataFrame) _ = _
      rw [valRec_mk_append hdisj hlen, valW_replicate]
    · show (l ++ List.replicate (valCols keys Y).length Value.nan).length
        = (X.cols ++ valCols keys Y).length
      rw [List.length_append, List.length_append, hlen, List.length_replicate]
  · have hlen : (X.cols.map (fun c =>
        if c ∈ keys then (colIdx Y c).elim Value.nan (cellAt r) else Value.nan)).length
        = X.cols.length := List.length_map _ _
    refine ⟨keyOfRow keys Y r, nanRec keys X, valRec keys Y r,
      contrib_nan hnk, contrib_row hrY rfl, Or.inr ⟨r, hrY, rfl⟩, ?_, ?_, ?_⟩
    · exact (keyOfRow_mk_append hkX hlen _).trans (keyOfRow_nanXRow hkX)
    · show valRec keys (⟨X.cols ++ valCols keys Y, _⟩ : DataFrame) _ = _
      rw [valRec_mk_append hdisj hlen, valW_keyOfRow hWY.1, valRec_nanXRow]
    · show (_ ++ keyOfRow (valCols keys Y) Y r).length = (X.cols ++ valCols keys Y).length
      rw [List.length_append, List.length_append, hlen]
      congr 1
      show ((valCols keys Y).map _).length = _
      rw [List.length_map]

theorem merged_record_exists {keys : List String} {X Y : DataFrame} (hr : MergeReady keys X Y)
    {k : List Value} {x y : Finset (String × Value)}
    (hx : x ∈ contrib keys X k) (hy : y ∈ contrib keys Y k)
    (hor : hasKey keys X k ∨ hasKey keys Y k) :
    ∃ row ∈ (mergeC keys X Y).rows,
      keyOfRow keys (mergeC keys X Y) row = k ∧
      valRec keys (mergeC keys X Y) row = x ∪ y := by
  obtain ⟨hWX, hWY, hkX, hkY, hdisj, hkind⟩ := hr
  rcases mem_contrib.mp hx with ⟨l, hl, hkl, rfl⟩ | ⟨hnX, rfl⟩
  · rcases mem_contrib.mp hy with ⟨r, hrY, hkr, rfl⟩ | ⟨hnY, rfl⟩
    · refine ⟨l ++ keyOfRow (valCols keys Y) Y r, ?_, ?_, ?_⟩
      · show _ ∈ mergeRowsC keys X Y
        rw [mem_mergeRowsC]
        exact Or.inl ⟨l, hl, r, hrY, hkr.trans hkl.symm, rfl⟩
      · exact (keyOfRow_mk_append hkX (hWX.2 l hl) _).trans hkl
      · show valRec keys (⟨X.cols ++ valCols keys Y, _⟩ : DataFrame) _ = _
        rw [valRec_mk_append hdisj (hWX.2 l hl), valW_keyOfRow hWY.1]
    · refine ⟨l ++ List.replicate (valCols keys Y).length Value.nan, ?_, ?_, ?_⟩
      · show _ ∈ mergeRowsC keys X Y
        rw [mem_mergeRowsC]
        exact Or.inr (Or.inl ⟨l, hl, by rw [hkl]; exact hnY, rfl⟩)
      · exact (keyOfRow_mk_append hkX (hWX.2 l hl) _).trans hkl
      · show valRec keys (⟨X.cols ++ valCols keys Y, _⟩ : DataFrame) _ = _
        rw [valRec_mk_append hdisj (hWX.2 l hl), valW_replicate]
  · rcases mem_contrib.mp hy with ⟨r, hrY, hkr, rfl⟩ | ⟨hnY, rfl⟩
    · refine ⟨X.cols.map (fun c =>
          if c ∈ keys then (colIdx Y c).elim Value.nan (cellAt r) else Value.nan) ++
          keyOfRow (valCols keys Y) Y r, ?_, ?_, ?_⟩
      · show _ ∈ mergeRowsC keys X Y
        rw [mem_mergeRowsC]
        exact Or.inr (Or.inr ⟨r, hrY, by rw [hkr]; exact hnX, rfl⟩)
      · exact ((keyOfRow_mk_append hkX (List.length_map _ _) _).trans
          (keyOfRow_nanXRow hkX)).trans hkr
      · show valRec keys (⟨X.cols ++ valCols keys Y, _⟩ : DataFrame) _ = _
        rw [valRec_mk_append hdisj (List.length_map _ _), valW_keyOfRow hWY.1,
          valRec_nanXRow]
    · cases hor with
      | inl h => exact absurd h hnX
      | inr h => exact absurd h hnY

theorem hasKey_mergeC {keys : List String} {X Y : DataFrame} (hr : MergeReady keys X Y)
    (k : List Value) :
    hasKey keys (mergeC keys X Y) k ↔ (hasKey keys X k ∨ hasKey keys Y k) := by
  constructor
  · rintro ⟨row, hrow, hkey⟩
    obtain ⟨kk, x, y, _, _, hor, hkeyr, _, _⟩ := merged_record hr row hrow
    rw [hkeyr.symm.trans hkey] at hor
    exact hor
  · intro hor
    obtain ⟨x, hx⟩ := contrib_nonempty keys X k
    obtain ⟨y, hy⟩ := contrib_nonempty keys Y k
    obtain ⟨row, hrow, hkey, _⟩ := merged_record_exists hr hx hy hor
    exact ⟨row, hrow, hkey⟩

theorem nanRec_mergeC {keys : List String} {X Y : DataFrame} :
    nanRec keys (mergeC keys X Y) = nanRec keys X ∪ nanRec keys Y := by
  unfold nanRec
  rw [show valCols keys (mergeC keys X Y) = valCols keys X ++ valCols keys Y from
    valCols_mk_append _, List.map_append, List.toFinset_append]

theorem cols_nodup_mergeC {keys : List String} {X Y : DataFrame} (hr : MergeReady keys X Y) :
    (mergeC keys X Y).cols.Nodup := by
  obtain ⟨hWX, hWY, _, _, hdisj, _⟩ := hr
  show (X.cols ++ valCols keys Y).Nodup
  rw [List.nodup_append]
  refine ⟨hWX.1, hWY.1.filter _, ?_⟩
  intro c hcX hcV
  exact hdisj c (mem_valCols.mpr ⟨hcX, (mem_valCols.mp hcV).2⟩) hcV

theorem contrib_mergeC {keys : List String} {X Y : DataFrame} (hr : MergeReady keys X Y)
    (k : List Value) :
    contrib keys (mergeC keys X Y) k =
      {s | ∃ x y, x ∈ contrib keys X k ∧ y ∈ contrib keys Y k ∧ s = x ∪ y} := by
  ext s
  constructor
  · intro hs
    rcases mem_contrib.mp hs with ⟨row, hrow, hkey, rfl⟩ | ⟨hnk, rfl⟩
    · obtain ⟨kk, x, y, hx, hy, _, hkeyr, hval, _⟩ := merged_record hr row hrow
      have hkeq : kk = k := hkeyr.symm.trans hkey
      subst hkeq
      exact ⟨x, y, hx, hy, hval⟩
    · rw [hasKey_mergeC hr] at hnk
      push_neg at hnk
      exact ⟨nanRec keys X, nanRec keys Y, contrib_nan hnk.1, contrib_nan hnk.2,
        nanRec_mergeC⟩
  · rintro ⟨x, y, hx, hy, rfl⟩
    by_cases hor : hasKey keys X k ∨ hasKey keys Y k
    · obtain ⟨row, hrow, hkey, hval⟩ := merged_record_exists hr hx hy hor
      exact Or.inl ⟨row, hrow, hkey, hval.symm⟩
    · push_neg at hor
      rcases mem_contrib.mp hx with ⟨l, hl, hkl, rfl⟩ | ⟨_, rfl⟩
      · exact absurd ⟨l, hl, hkl⟩ hor.1
      rcases mem_contrib.mp hy with ⟨r, hrY, hkr, rfl⟩ | ⟨_, rfl⟩
      · exact absurd ⟨r, hrY, hkr⟩ hor.2
      · refine Or.inr ⟨?_, nanRec_mergeC.symm⟩
        rw [hasKey_mergeC hr]
        tauto

theorem rowset_mergeC {keys : List String} {X Y : DataFrame} (hr : MergeReady keys X Y)
    (s : Finset (String × Value)) :
    s ∈ rowset (mergeC keys X Y) ↔
      ∃ k x y, x ∈ contrib keys X k ∧ y ∈ contrib keys Y k ∧
        (hasKey keys X k ∨ hasKey keys Y k) ∧ s = keyRec keys k ∪ (x ∪ y) := by
  have hksub : ∀ c ∈ keys, c ∈ (mergeC keys X Y).cols := by
    intro c hc
    exact List.mem_append_left _ (hr.2.2.1 c hc)
  unfold rowset
  rw [List.mem_toFinset, List.mem_map]
  constructor
  · rintro ⟨row, hrow, rfl⟩
    obtain ⟨k, x, y, hx, hy, hor, hkey, hval, hlen⟩ := merged_record hr row hrow
    refine ⟨k, x, y, hx, hy, hor, ?_⟩
    rw [recordOf_key_val (cols_nodup_mergeC hr) hlen hksub, hkey, hval]
  · rintro ⟨k, x, y, hx, hy, hor, rfl⟩
    obtain ⟨row, hrow, hkey, hval⟩ := merged_record_exists hr hx hy hor
    obtain ⟨_, _, _, _, _, _, _, _, hlen⟩ := merged_record hr row hrow
    refine ⟨row, hrow, ?_⟩
    rw [recordOf_key_val (cols_nodup_mergeC hr) hlen hksub, hkey, hval]

theorem mergeRowsC_prefix (keys : List String) {X : DataFrame} (Y : DataFrame) :
    ∀ l ∈ X.rows, ∃ row ∈ mergeRowsC keys X Y, ∃ w, row = l ++ w := by
  intro l hl
  by_cases hhk : hasKey keys Y (keyOfRow keys X l)
  · obtain ⟨r, hr, hkr⟩ := hhk
    exact ⟨l ++ keyOfRow (valCols keys Y) Y r,
      mem_mergeRowsC.mpr (Or.inl ⟨l, hl, r, hr, hkr, rfl⟩), _, rfl⟩
  · exact ⟨l ++ List.replicate (valCols keys Y).length Value.nan,
      mem_mergeRowsC.mpr (Or.inr (Or.inl ⟨l, hl, hhk, rfl⟩)), _, rfl⟩

theorem kindNumeric_mergeC {keys : List String} {X Y : DataFrame}
    (hr : MergeReady keys X Y) :
    ∀ k ∈ keys, kindNumeric (mergeC keys X Y) k = kindNumeric X k := by
  obtain ⟨hWX, hWY, hkX, hkY, hdisj, hkind⟩ := hr
  intro k hk
  obtain ⟨i, hi⟩ := idxOfCol_mem (hkX k hk)
  obtain ⟨j, hj⟩ := idxOfCol_mem (hkY k hk)
  have hi2 : colIdx X k = some i := hi
  have hj2 : colIdx Y k = some j := hj
  have hiM : colIdx (mergeC keys X Y) k = some i := idxOfCol_append_left hi
  have hXeq : kindNumeric X k = (colValsAt X i).all Value.isNumeric := by
    unfold kindNumeric
    rw [hi2]
  have hYeq : kindNumeric Y k = (colValsAt Y j).all Value.isNumeric := by
    unfold kindNumeric
    rw [hj2]
  have hMeq : kindNumeric (mergeC keys X Y) k
      = (colValsAt (mergeC keys X Y) i).all Value.isNumeric := by
    unfold kindNumeric
    rw [hiM]
  rw [hMeq, hXeq]
  have hilt : i < X.cols.length := idxOfCol_lt hi
  cases hXall : (colValsAt X i).all Value.isNumeric with
  | true =>
      have hYall : (colValsAt Y j).all Value.isNumeric = true := by
        have hkk := hkind k hk
        rw [hXeq, hYeq, hXall] at hkk
        exact hkk.symm
      rw [List.all_eq_true] at hXall hYall
      rw [List.all_eq_true]
      intro v hv
      rcases List.mem_map.mp hv with ⟨row, hrow, rfl⟩
      have hrow2 : row ∈ mergeRowsC keys X Y := hrow
      rw [mem_mergeRowsC] at hrow2
      rcases hrow2 with ⟨l, hl, r, hrY, _, rfl⟩ | ⟨l, hl, _, rfl⟩ | ⟨r, hrY, _, rfl⟩
      · rw [cellAt_append_lt (by rw [hWX.2 l hl]; exact hilt)]
        exact hXall _ (List.mem_map_of_mem _ hl)
      · rw [cellAt_append_lt (by rw [hWX.2 l hl]; exact hilt)]
        exact hXall _ (List.mem_map_of_mem _ hl)
      · rw [cellAt_append_lt (by rw [List.length_map]; exact hilt)]
        rw [cellAt_map_get (idxOfCol_get hi), if_pos hk, hj2]
        exact hYall _ (List.mem_map_of_mem _ hrY)
  | false =>
      rw [List.all_eq_false] at hXall
      obtain ⟨v0, hv0, hv0n⟩ := hXall
      rcases List.mem_map.mp hv0 with ⟨l0, hl0, rfl⟩
      obtain ⟨row, hrowM, w, rfl⟩ := mergeRowsC_prefix keys Y l0 hl0
      rw [List.all_eq_false]
      refine ⟨cellAt l0 i, ?_, hv0n⟩
      have hcell : cellAt (l0 ++ w) i = cellAt l0 i :=
        cellAt_append_lt (by rw [hWX.2 l0 hl0]; exact hilt)
      rw [← hcell]
      exact List.mem_map_of_mem _ hrowM

theorem mergeReady_assoc {keys : List String} {A B C : DataFrame}
    (h : TripleReady keys A B C) : MergeReady keys (mergeC keys A B) C := by
  obtain ⟨hWA, hWB, hWC, hkA, hkB, hkC, hAB, hAC, hBC, hkAB, hkAC, hkBC⟩ := h
  have hrAB : MergeReady keys A B := ⟨hWA, hWB, hkA, hkB, hAB, hkAB⟩
  refine ⟨⟨cols_nodup_mergeC hrAB, ?_⟩, hWC, ?_, hkC, ?_, ?_⟩
  · intro row hrow
    obtain ⟨_, _, _, _, _, _, _, _, hlen⟩ := merged_record hrAB row hrow
    exact hlen
  · intro k hk
    exact List.mem_append_left _ (hkA k hk)
  · intro c hc
    rw [show valCols keys (mergeC keys A B) = valCols keys A ++ valCols keys B from
      valCols_mk_append _] at hc
    cases List.mem_append.mp hc with
    | inl h1 => exact hAC c h1
    | inr h2 => exact hBC c h2
  · intro k hk
    exact (kindNumeric_mergeC hrAB k hk).trans (hkAC k hk)

theorem merge_triple_char {keys : List String} {A B C : DataFrame}
    (h : TripleReady keys A B C) :
    merge_on_keys [A, B, C] keys = .ok (mergeC keys (mergeC keys A B) C) ∧
    ∀ s, s ∈ rowset (mergeC keys (mergeC keys A B) C) ↔ s ∈ tripleSem keys A B C := by
  obtain ⟨hWA, hWB, hWC, hkA, hkB, hkC, hAB, hAC, hBC, hkAB, hkAC, hkBC⟩ := h
  have hrAB : MergeReady keys A B := ⟨hWA, hWB, hkA, hkB, hAB, hkAB⟩
  have hrMC : MergeReady keys (mergeC keys A B) C :=
    mergeReady_assoc ⟨hWA, hWB, hWC, hkA, hkB, hkC, hAB, hAC, hBC, hkAB, hkAC, hkBC⟩
  have hMC := hrMC
  obtain ⟨hWM, _, hkM, _, hdisjMC, hkindMC⟩ := hMC
  constructor
  · show [B, C].foldlM (fun acc df => mergeOuter keys acc df) A = _
    rw [List.foldlM_cons, mergeOuter_ok hWA.1 hWB.1 hkA hkB hAB hkAB, exc_ok_bind,
      List.foldlM_cons, mergeOuter_ok hWM.1 hWC.1 hkM hkC hdisjMC hkindMC, exc_ok_bind,
      List.foldlM_nil]
    rfl
  · intro s
    rw [rowset_mergeC hrMC s]
    constructor
    · rintro ⟨k, m, c, hm, hc, hor, rfl⟩
      rw [contrib_mergeC hrAB] at hm
      obtain ⟨x, y, hx, hy, rfl⟩ := hm
      rw [hasKey_mergeC hrAB] at hor
      refine ⟨k, x, y, c, hx, hy, hc, by tauto, ?_⟩
      rw [Finset.union_assoc]
    · rintro ⟨k, x, y, c, hx, hy, hc, hor, rfl⟩
      refine ⟨k, x ∪ y, c, ?_, hc, ?_, ?_⟩
      · rw [contrib_mergeC hrAB]
        exact ⟨x, y, hx, hy, rfl⟩
      · rw [hasKey_mergeC hrAB]
        tauto
      · rw [Finset.union_assoc]

theorem tripleSem_swap12 (keys : List String) (A B C : DataFrame) :
    tripleSem keys A B C = tripleSem keys B A C := by
  ext s
  constructor
  · rintro ⟨k, a, b, c, ha, hb, hc, hor, rfl⟩
    exact ⟨k, b, a, c, hb, ha, hc, by tauto,
      congrArg (fun z => keyRec keys k ∪ z) (Finset.union_left_comm a b c)⟩
  · rintro ⟨k, b, a, c, hb, ha, hc, hor, rfl⟩
    exact ⟨k, a, b, c, ha, hb, hc, by tauto,
      congrArg (fun z => keyRec keys k ∪ z) (Finset.union_left_comm b a c)⟩

theorem tripleSem_swap23 (keys : List String) (A B C : DataFrame) :
    tripleSem keys A B C = tripleSem keys A C B := by
  ext s
  constructor
  · rintro ⟨k, a, b, c, ha, hb, hc, hor, rfl⟩
    exact ⟨k, a, c, b, ha, hc, hb, by tauto,
      congrArg (fun z => keyRec keys k ∪ (a ∪ z)) (Finset.union_comm b c)⟩
  · rintro ⟨k, a, c, b, ha, hc, hb, hor, rfl⟩
    exact ⟨k, a, b, c, ha, hb, hc, by tauto,
      congrArg (fun z => keyRec keys k ∪ (a ∪ z)) (Finset.union_comm c b)⟩

theorem tripleReady_swap12 {keys : List String} {A B C : DataFrame}
    (h : TripleReady keys A B C) : TripleReady keys B A C := by
  obtain ⟨hWA, hWB, hWC, hkA, hkB, hkC, hAB, hAC, hBC, hkAB, hkAC, hkBC⟩ := h
  exact ⟨hWB, hWA, hWC, hkB, hkA, hkC, fun c hc hc2 => hAB c hc2 hc, hBC, hAC,
    fun k hk => (hkAB k hk).symm, hkBC, hkAC⟩

theorem tripleReady_swap23 {keys : List String} {A B C : DataFrame}
    (h : TripleReady keys A B C) : TripleReady keys A C B := by
  obtain ⟨hWA, hWB, hWC, hkA, hkB, hkC, hAB, hAC, hBC, hkAB, hkAC, hkBC⟩ := h
  exact ⟨hWA, hWC, hWB, hkA, hkC, hkB, hAC, hAB, fun c hc hc2 => hBC c hc2 hc,
    hkAC, hkAB, fun k hk => (hkBC k hk).symm⟩

theorem perm2 {α : Type} {l : List α} {a b : α} (h : l.Perm [a, b]) :
    l = [a, b] ∨ l = [b, a] := by
  have hlen : l.length = 2 := by rw [h.length_eq]; rfl
  cases l with
  | nil => simp at hlen
  | cons x t =>
    cases t with
    | nil => simp at hlen
    | cons y t2 =>
      cases t2 with
      | cons z t3 => simp at hlen
      | nil =>
          have hx : x ∈ [a, b] := h.mem_iff.mp (List.mem_cons_self _ _)
          rcases List.mem_cons.mp hx with rfl | hx2
          · have h2 : [y].Perm [b] := (List.perm_cons x).mp h
            have hy : y = b := by simpa using List.perm_singleton.mp h2
            subst hy
            exact Or.inl rfl
          · have hx3 : x = b := by simpa using hx2
            subst hx3
            have h2 : [y].Perm [a] :=
              (List.perm_cons x).mp (h.trans (List.Perm.swap x a []))
            have hy : y = a := by simpa using List.perm_singleton.mp h2
            subst hy
            exact Or.inr rfl

theorem perm3 {α : Type} {l : List α} {a b c : α} (h : l.Perm [a, b, c]) :
    l = [a, b, c] ∨ l = [b, a, c] ∨ l = [c, b, a] ∨
    l = [b, c, a] ∨ l = [c, a, b] ∨ l = [a, c, b] := by
  have hlen : l.length = 3 := by rw [h.length_eq]; rfl
  cases l with
  | nil => simp at hlen
  | cons x t =>
      have hx : x ∈ [a, b, c] := h.mem_iff.mp (List.mem_cons_self _ _)
      rcases List.mem_cons.mp hx with rfl | hx2
      · have h2 : t.Perm [b, c] := (List.perm_cons x).mp h
        rcases perm2 h2 with rfl | rfl
        · exact Or.inl rfl
        · exact Or.inr (Or.inr (Or.inr (Or.inr (Or.inr rfl))))
      · rcases List.mem_cons.mp hx2 with rfl | hx3
        · have h2 : t.Perm [a, c] :=
            (List.perm_cons x).mp (h.trans (List.Perm.swap x a [c]))
          rcases perm2 h2 with rfl | rfl
          · exact Or.inr (Or.inl rfl)
          · exact Or.inr (Or.inr (Or.inr (Or.inl rfl)))
        · have hx4 : x = c := by simpa using hx3
          subst hx4
          have hstep : [a, b, x].Perm (x :: [a, b]) :=
            (List.Perm.cons a (List.Perm.swap x b [])).trans (List.Perm.swap x a [b])
          have h2 : t.Perm [a, b] := (List.perm_cons x).mp (h.trans hstep)
          rcases perm2 h2 with rfl | rfl
          · exact Or.inr (Or.inr (Or.inr (Or.inr (Or.inl rfl))))
          · exact Or.inr (Or.inr (Or.inl rfl))

/-- C4: the claim fails as frozen — when two of the frames share a
non-key column name, the pandas `_x`/`_y` suffixes are assigned by merge
position, so reordering the frames swaps which column carries which
values and the row set changes.  Here all three frames carry the key
column `id`, `[c4B, c4A, c4C]` is a permutation of `[c4A, c4B, c4C]`,
yet the two merge orders give different row sets. -/
theorem c4_counterexample :
    (∀ k ∈ ["id"], k ∈ c4A.cols) ∧ (∀ k ∈ ["id"], k ∈ c4B.cols) ∧
    (∀ k ∈ ["id"], k ∈ c4C.cols) ∧
    [c4B, c4A, c4C].Perm [c4A, c4B, c4C] ∧
    ¬ ((merge_on_keys [c4A, c4B, c4C] ["id"]).map rowset =
       (merge_on_keys [c4B, c4A, c4C] ["id"]).map rowset) := by decide

/-- C4 (amended): for three rectangular frames with distinct column
names that all carry every key column with the same dtype kind (so the
mixed-kind `ValueError` cannot fire) and whose non-key column names are
pairwise disjoint (so no `_x`/`_y` suffixing fires and no `MergeError`
either — the situation of the repo's `test_merge_on_keys`),
`merge_on_keys` succeeds on every permutation of the three frames and
the resulting set of row records — each row read as its set of
(column, value) pairs — is the same for every ordering. -/
theorem c4_theorem (keys : List String) (A B C : DataFrame) (l : List DataFrame)
    (hperm : l.Perm [A, B, C]) (h : TripleReady keys A B C) :
    ∃ D DP, merge_on_keys [A, B, C] keys = .ok D ∧ merge_on_keys l keys = .ok DP ∧
      rowset DP = rowset D := by
  obtain ⟨hD, hiff⟩ := merge_triple_char h
  rcases perm3 hperm with rfl | rfl | rfl | rfl | rfl | rfl
  · exact ⟨_, _, hD, hD, rfl⟩
  · obtain ⟨hD2, hiff2⟩ := merge_triple_char (tripleReady_swap12 h)
    refine ⟨_, _, hD, hD2, ?_⟩
    apply Finset.ext
    intro s
    rw [hiff2 s, hiff s, tripleSem_swap12 keys A B C]
  · obtain ⟨hD2, hiff2⟩ := merge_triple_char
      (tripleReady_swap12 (tripleReady_swap23 (tripleReady_swap12 h)))
    refine ⟨_, _, hD, hD2, ?_⟩
    apply Finset.ext
    intro s
    rw [hiff2 s, hiff s, tripleSem_swap12 keys A B C, tripleSem_swap23 keys B A C,
      tripleSem_swap12 keys B C A]
  · obtain ⟨hD2, hiff2⟩ := merge_triple_char (tripleReady_swap23 (tripleReady_swap12 h))
    refine ⟨_, _, hD, hD2, ?_⟩
    apply Finset.ext
    intro s
    rw [hiff2 s, hiff s, tripleSem_swap12 keys A B C, tripleSem_swap23 keys B A C]
  · obtain ⟨hD2, hiff2⟩ := merge_triple_char (tripleReady_swap12 (tripleReady_swap23 h))
    refine ⟨_, _, hD, hD2, ?_⟩
    apply Finset.ext
    intro s
    rw [hiff2 s, hiff s, tripleSem_swap23 keys A B C, tripleSem_swap12 keys A C B]
  · obtain ⟨hD2, hiff2⟩ := merge_triple_char (tripleReady_swap23 h)
    refine ⟨_, _, hD, hD2, ?_⟩
    apply Finset.ext
    intro s
    rw [hiff2 s, hiff s, tripleSem_swap23 keys A B C]

/-- Witness for `c4_theorem` on the repo test's three id-keyed frames:
swapping the first two frames leaves the merged row set unchanged. -/
theorem c4_witness :
    ∃ D DP, merge_on_keys [cwA, cwB, cwC] ["id"] = .ok D ∧
      merge_on_keys [cwB, cwA, cwC] ["id"] = .ok DP ∧ rowset DP = rowset D :=
  c4_theorem ["id"] cwA cwB cwC [cwB, cwA, cwC] (by decide) (by decide)

end Maps
